import Mathlib

/-!
Verification of the market-making engine core against its specification.

Shallow embedding conventions:
* C++ `double` is modelled as `ℚ` (exact rational arithmetic; every concrete
  value appearing in the claims is exactly representable in binary floating
  point, so the rational model agrees with the C++ computation on them).
* C++ `int` / `int64_t` are modelled as `ℤ`, `uint64_t` ids as `ℕ`.
* `std::chrono::system_clock::time_point` is modelled as `ℚ` counting
  milliseconds since the epoch (the code logs timestamps at millisecond
  precision via `to_millis`).
* Stateful member functions become pure functions `State → Args → State`
  (or `State × Result`).
-/

namespace Engine

/-- `enum class Side` from `Order.h`. -/
inductive Side where
  | BUY
  | SELL
deriving DecidableEq, Repr

/-- `enum class OrderStatus` from `Order.h`. -/
inductive OrderStatus where
  | NEW
  | ACKNOWLEDGED
  | PARTIALLY_FILLED
  | FILLED
  | CANCELED
  | REJECTED
deriving DecidableEq, Repr

/-- `struct Order` from `Order.h` (the `uint64_t`-id revision used by the
matching engine). Timestamps are rational milliseconds. -/
structure Order where
  order_id : ℕ
  side : Side
  price : ℚ
  original_qty : ℤ
  leaves_qty : ℤ
  status : OrderStatus
  created_at : ℚ
  updated_at : ℚ
deriving DecidableEq, Repr

/-- The full `Order` constructor: `Order(id, s, p, qty, ts)`. -/
def Order.mk' (id : ℕ) (s : Side) (p : ℚ) (qty : ℤ) (ts : ℚ) : Order :=
  { order_id := id, side := s, price := p, original_qty := qty,
    leaves_qty := qty, status := OrderStatus.NEW, created_at := ts, updated_at := ts }

/-- `struct FillEvent` from `Order.h`. -/
structure FillEvent where
  order_id : ℕ
  trade_id : ℕ
  side : Side
  price : ℚ
  fill_qty : ℤ
  leaves_qty : ℤ
  timestamp : ℚ
deriving DecidableEq, Repr

/-- `struct FeeSchedule` from `include/Accounting.h`. -/
structure FeeSchedule where
  maker_rebate_per_share : ℚ := 0
  taker_fee_per_share : ℚ := 0
  fee_bps : ℚ := 0
deriving DecidableEq, Repr

/-- The member state of `class Accounting` from `include/Accounting.h`. -/
structure Accounting where
  initial_capital : ℚ
  cash : ℚ
  position : ℤ := 0
  cost_basis : ℚ := 0
  realized_pnl : ℚ := 0
  unrealized_pnl : ℚ := 0
  total_fees : ℚ := 0
  total_rebates : ℚ := 0
  mark_price : ℚ := 0
  fees : FeeSchedule := {}
deriving DecidableEq, Repr

/-- The `Accounting(initial_capital, fees)` constructor. -/
def Accounting.init (initial_capital : ℚ) (fees : FeeSchedule := {}) : Accounting :=
  { initial_capital := initial_capital, cash := initial_capital, fees := fees }

/-- `Accounting::avg_entry_price`: `cost_basis_ / std::abs(position_)`,
`0` when flat. -/
def Accounting.avg_entry_price (a : Accounting) : ℚ :=
  if a.position = 0 then 0 else a.cost_basis / |(a.position : ℚ)|

/-- `Accounting::mark_to_market`. -/
def Accounting.mark_to_market (a : Accounting) (mark_price : ℚ) : Accounting :=
  let u : ℚ :=
    if a.position ≠ 0 then
      let avg := a.avg_entry_price
      if a.position > 0 then (mark_price - avg) * a.position
      else (avg - mark_price) * (-(a.position : ℚ))
    else 0
  { a with mark_price := mark_price, unrealized_pnl := u }

/-- `Accounting::on_fill(side, price, qty, is_maker)`. -/
def Accounting.on_fill (a : Accounting) (side : Side) (price : ℚ) (qty : ℤ)
    (is_maker : Bool) : Accounting :=
  let notional : ℚ := price * (qty : ℚ)
  let fee0 : ℚ := notional * (a.fees.fee_bps / 10000)
  let rebates' : ℚ :=
    if is_maker then a.total_rebates + a.fees.maker_rebate_per_share * qty
    else a.total_rebates
  let fee : ℚ :=
    if is_maker then fee0 - a.fees.maker_rebate_per_share * qty
    else fee0 + a.fees.taker_fee_per_share * qty
  let fees' : ℚ := a.total_fees + fee
  let step :=
    match side with
    | Side.BUY =>
      let cash' := a.cash - notional
      if a.position ≥ 0 then
        (cash', a.cost_basis + notional, a.realized_pnl, a.position + qty)
      else
        let close_qty := min qty (-a.position)
        let open_qty := qty - close_qty
        let avg := a.avg_entry_price
        let rpnl' := a.realized_pnl + (avg - price) * close_qty
        let cb' := if open_qty > 0 then price * open_qty
                   else a.cost_basis - avg * close_qty
        (cash', cb', rpnl', a.position + qty)
    | Side.SELL =>
      let cash' := a.cash + notional
      if a.position ≤ 0 then
        (cash', a.cost_basis + notional, a.realized_pnl, a.position - qty)
      else
        let close_qty := min qty a.position
        let open_qty := qty - close_qty
        let avg := a.avg_entry_price
        let rpnl' := a.realized_pnl + (price - avg) * close_qty
        let cb' := if open_qty > 0 then price * open_qty
                   else a.cost_basis - avg * close_qty
        (cash', cb', rpnl', a.position - qty)
  let cash' := step.1
  let cb' := step.2.1
  let rpnl' := step.2.2.1
  let pos' := step.2.2.2
  let cb'' : ℚ := if pos' = 0 then 0 else cb'
  ({ a with cash := cash', cost_basis := cb'', realized_pnl := rpnl',
            position := pos', total_fees := fees',
            total_rebates := rebates' }).mark_to_market price

/-- `Accounting::total_pnl`. -/
def Accounting.total_pnl (a : Accounting) : ℚ := a.realized_pnl + a.unrealized_pnl

/-- `Accounting::net_pnl`. -/
def Accounting.net_pnl (a : Accounting) : ℚ :=
  a.total_pnl - a.total_fees + a.total_rebates

/-- `Accounting::gross_exposure`. -/
def Accounting.gross_exposure (a : Accounting) (mark_price : ℚ) : ℚ :=
  |(a.position : ℚ)| * mark_price

end Engine

namespace Engine

def CostBasisInv (a : Accounting) : Prop :=
  (a.position = 0 → a.cost_basis = 0) ∧ (a.position ≠ 0 → 0 < a.cost_basis)

lemma on_fill_costBasisInv (a : Accounting) (s : Side) (p : ℚ) (q : ℤ) (m : Bool)
    (hp : 0 < p) (hq : 0 < q) (h : CostBasisInv a) :
    CostBasisInv (a.on_fill s p q m) := by
  obtain ⟨h0, hpos⟩ := h
  have hqQ : (0 : ℚ) < (q : ℚ) := by exact_mod_cast hq
  cases s
  case BUY =>
    simp only [Accounting.on_fill, Accounting.mark_to_market, Accounting.avg_entry_price,
      CostBasisInv]
    split_ifs with h1 h2 h3 h4 h5 h6 h7 h8 h9 <;>
      constructor <;> intro hh <;> dsimp only at * <;> try rfl
    all_goals try omega
    · -- adding to (or opening) a long: cost basis grows by a positive notional
      have hcb : 0 ≤ a.cost_basis := by
        rcases eq_or_lt_of_le h1 with he | hl
        · simp [h0 he.symm]
        · exact le_of_lt (hpos (by omega))
      nlinarith [mul_pos hp hqQ]
    · -- flip from short to long: cost basis reset to price * open_qty > 0
      have : (0 : ℚ) < ((q - q ⊓ -a.position : ℤ) : ℚ) := by exact_mod_cast h3
      exact mul_pos hp this
    · -- partial close of a short: cost basis scales by (|pos| - qty)/|pos|
      have hple : q ≤ -a.position := by omega
      have hmin : q ⊓ -a.position = q := min_eq_left hple
      have hlt : q < -a.position := by omega
      have hcb : 0 < a.cost_basis := hpos (by omega)
      have hposQ : (a.position : ℚ) < 0 := by exact_mod_cast (by omega : a.position < 0)
      have habs : |(a.position : ℚ)| = -(a.position : ℚ) := abs_of_neg hposQ
      have hltQ : (q : ℚ) < -(a.position : ℚ) := by exact_mod_cast hlt
      rw [hmin, habs]
      have hP : (0 : ℚ) < -(a.position : ℚ) := by linarith
      have key : a.cost_basis - a.cost_basis / (-(a.position : ℚ)) * (q : ℚ) =
          a.cost_basis * ((-(a.position : ℚ)) - q) / (-(a.position : ℚ)) := by
        field_simp
        ring
      rw [key]
      exact div_pos (mul_pos hcb (by linarith)) hP
  case SELL =>
    simp only [Accounting.on_fill, Accounting.mark_to_market, Accounting.avg_entry_price,
      CostBasisInv]
    split_ifs with h1 h2 h3 h4 h5 h6 h7 h8 h9 <;>
      constructor <;> intro hh <;> dsimp only at * <;> try rfl
    all_goals try omega
    · have hcb : 0 ≤ a.cost_basis := by
        rcases eq_or_lt_of_le h1 with he | hl
        · simp [h0 he]
        · exact le_of_lt (hpos (by omega))
      nlinarith [mul_pos hp hqQ]
    · have : (0 : ℚ) < ((q - q ⊓ a.position : ℤ) : ℚ) := by exact_mod_cast h3
      exact mul_pos hp this
    · have hple : q ≤ a.position := by omega
      have hmin : q ⊓ a.position = q := min_eq_left hple
      have hlt : q < a.position := by omega
      have hcb : 0 < a.cost_basis := hpos (by omega)
      have hposQ : (0 : ℚ) < (a.position : ℚ) := by exact_mod_cast (by omega : 0 < a.position)
      have habs : |(a.position : ℚ)| = (a.position : ℚ) := abs_of_pos hposQ
      have hltQ : (q : ℚ) < (a.position : ℚ) := by exact_mod_cast hlt
      rw [hmin, habs]
      have key : a.cost_basis - a.cost_basis / (a.position : ℚ) * (q : ℚ) =
          a.cost_basis * ((a.position : ℚ) - q) / (a.position : ℚ) := by
        field_simp
        ring
      rw [key]
      exact div_pos (mul_pos hcb (by linarith)) hposQ

end Engine

namespace Engine

/-- An operation on the `Accounting` state, as in the claim: a fill or a
re-mark. -/
inductive AccOp where
  | fill (side : Side) (price : ℚ) (qty : ℤ) (is_maker : Bool)
  | mark (price : ℚ)

/-- The claim's side condition on fills: positive price and positive
quantity. -/
def AccOp.valid : AccOp → Prop
  | .fill _ p q _ => 0 < p ∧ 0 < q
  | .mark _ => True

/-- Dispatch one operation to the corresponding `Accounting` member
function. -/
def Accounting.applyOp (a : Accounting) : AccOp → Accounting
  | .fill s p q m => a.on_fill s p q m
  | .mark p => a.mark_to_market p

/-- A sequence of `Accounting` operations applied in order. -/
def Accounting.runOps (a : Accounting) (ops : List AccOp) : Accounting :=
  ops.foldl Accounting.applyOp a

lemma mark_to_market_costBasisInv (a : Accounting) (p : ℚ) (h : CostBasisInv a) :
    CostBasisInv (a.mark_to_market p) := by
  simpa [CostBasisInv, Accounting.mark_to_market] using h

lemma runOps_costBasisInv (ops : List AccOp) (a : Accounting) (h : CostBasisInv a)
    (hops : ∀ op ∈ ops, op.valid) : CostBasisInv (a.runOps ops) := by
  induction ops generalizing a with
  | nil => exact h
  | cons op rest ih =>
    have hop := hops op (List.mem_cons_self _ _)
    have hrest : ∀ op ∈ rest, op.valid := fun o ho => hops o (List.mem_cons_of_mem _ ho)
    cases op with
    | fill s p q m =>
      exact ih _ (on_fill_costBasisInv a s p q m hop.1 hop.2 h) hrest
    | mark p =>
      exact ih _ (mark_to_market_costBasisInv a p h) hrest

lemma init_costBasisInv (cap : ℚ) (fees : FeeSchedule) :
    CostBasisInv (Accounting.init cap fees) := by
  constructor <;> simp [CostBasisInv, Accounting.init]

/-- C6: for every sequence of Accounting operations (`on_fill` with positive
price and positive quantity, and `mark_to_market`) starting from a freshly
constructed `Accounting`, the resulting state has `cost_basis ≥ 0`, and
`cost_basis = 0` exactly when `position = 0`. Since this holds for every
such sequence, it holds after each operation of any sequence. -/
theorem C6_cost_basis_nonneg_iff_flat (cap : ℚ) (fees : FeeSchedule)
    (ops : List AccOp) (hops : ∀ op ∈ ops, op.valid) :
    0 ≤ ((Accounting.init cap fees).runOps ops).cost_basis ∧
      (((Accounting.init cap fees).runOps ops).cost_basis = 0 ↔
        ((Accounting.init cap fees).runOps ops).position = 0) := by
  have key : CostBasisInv ((Accounting.init cap fees).runOps ops) :=
    runOps_costBasisInv ops _ (init_costBasisInv cap fees) hops
  obtain ⟨h0, hpos⟩ := key
  by_cases hp : ((Accounting.init cap fees).runOps ops).position = 0
  · refine ⟨le_of_eq (h0 hp).symm, by simp [h0 hp, hp]⟩
  · have hlt := hpos hp
    refine ⟨le_of_lt hlt, ⟨fun hh => absurd hh (by linarith), fun hh => absurd hh hp⟩⟩

/-- Witness for C6 at a concrete operation sequence. -/
theorem C6_cost_basis_nonneg_iff_flat_witness :
    0 ≤ ((Accounting.init 100000 {}).runOps
        [AccOp.fill Side.BUY 50 10 true, AccOp.mark 53]).cost_basis ∧
      (((Accounting.init 100000 {}).runOps
        [AccOp.fill Side.BUY 50 10 true, AccOp.mark 53]).cost_basis = 0 ↔
        ((Accounting.init 100000 {}).runOps
        [AccOp.fill Side.BUY 50 10 true, AccOp.mark 53]).position = 0) :=
  C6_cost_basis_nonneg_iff_flat 100000 {} _ (by
    intro op hop
    fin_cases hop
    · exact ⟨by norm_num, by norm_num⟩
    · trivial)

/-- C2: starting from `Accounting(100000)` with zero fees, after
`on_fill(BUY, 50.0, 10, maker)` then `on_fill(SELL, 55.0, 15, maker)` the
state has `position = -5`, `realized_pnl = 50`, `avg_entry_price = 55`,
`cost_basis = 275`; a subsequent `mark_to_market(53.0)` yields
`unrealized_pnl = 10`. -/
theorem C2_accounting_flip :
    (((Accounting.init 100000).on_fill Side.BUY 50 10 true).on_fill
        Side.SELL 55 15 true).position = -5 ∧
    (((Accounting.init 100000).on_fill Side.BUY 50 10 true).on_fill
        Side.SELL 55 15 true).realized_pnl = 50 ∧
    (((Accounting.init 100000).on_fill Side.BUY 50 10 true).on_fill
        Side.SELL 55 15 true).avg_entry_price = 55 ∧
    (((Accounting.init 100000).on_fill Side.BUY 50 10 true).on_fill
        Side.SELL 55 15 true).cost_basis = 275 ∧
    ((((Accounting.init 100000).on_fill Side.BUY 50 10 true).on_fill
        Side.SELL 55 15 true).mark_to_market 53).unrealized_pnl = 10 := by
  norm_num [Accounting.init, Accounting.on_fill, Accounting.mark_to_market,
    Accounting.avg_entry_price]

end Engine

namespace Engine

/-- The member state of `class MatchingEngine` from `MatchingEngine.h`:
`bid_book` sorted descending by price then ascending by time, `ask_book`
sorted ascending by price then ascending by time. -/
structure MatchingEngine where
  bid_book : List Order := []
  ask_book : List Order := []
deriving DecidableEq, Repr

/-- A freshly constructed `MatchingEngine`. -/
def MatchingEngine.empty : MatchingEngine := {}

/-- The `std::lower_bound` comparator used by `MatchingEngine::insert_bid`:
descending by price, then ascending by `created_at`. -/
def bidLess (existing incoming : Order) : Bool :=
  if existing.price ≠ incoming.price then decide (existing.price > incoming.price)
  else decide (existing.created_at < incoming.created_at)

/-- The `std::lower_bound` comparator used by `MatchingEngine::insert_ask`:
ascending by price, then ascending by `created_at`. -/
def askLess (existing incoming : Order) : Bool :=
  if existing.price ≠ incoming.price then decide (existing.price < incoming.price)
  else decide (existing.created_at < incoming.created_at)

/-- `vec.insert(std::lower_bound(vec.begin(), vec.end(), o, cmp), o)`:
the new element goes after every existing element `x` with `cmp x o`,
and before the first existing element with `¬ cmp x o`. -/
def lowerBoundInsert (cmp : Order → Order → Bool) : List Order → Order → List Order
  | [], o => [o]
  | x :: xs, o => if cmp x o then x :: lowerBoundInsert cmp xs o else o :: x :: xs

/-- `MatchingEngine::insert_bid`. -/
def MatchingEngine.insert_bid (e : MatchingEngine) (o : Order) : MatchingEngine :=
  { e with bid_book := lowerBoundInsert bidLess e.bid_book o }

/-- `MatchingEngine::insert_ask`. -/
def MatchingEngine.insert_ask (e : MatchingEngine) (o : Order) : MatchingEngine :=
  { e with ask_book := lowerBoundInsert askLess e.ask_book o }

/-- `MatchingEngine::add_order`. Rejects non-positive quantity or price;
otherwise acknowledges and inserts into the appropriate side. -/
def MatchingEngine.add_order (e : MatchingEngine) (o : Order) :
    MatchingEngine × OrderStatus :=
  if o.leaves_qty ≤ 0 ∨ o.price ≤ 0 then (e, OrderStatus.REJECTED)
  else
    let o' := { o with status := OrderStatus.ACKNOWLEDGED }
    match o'.side with
    | Side.BUY => (e.insert_bid o', OrderStatus.ACKNOWLEDGED)
    | Side.SELL => (e.insert_ask o', OrderStatus.ACKNOWLEDGED)

/-- Erase the first order with the given id, if any (the loop body of
`MatchingEngine::cancel_order` on one book). -/
def eraseById (id : ℕ) : List Order → Option (List Order)
  | [] => none
  | x :: xs =>
    if x.order_id = id then some xs
    else (eraseById id xs).map (fun l => x :: l)

/-- `MatchingEngine::cancel_order`: search bids first, then asks. -/
def MatchingEngine.cancel_order (e : MatchingEngine) (id : ℕ) :
    MatchingEngine × Bool :=
  match eraseById id e.bid_book with
  | some b => ({ e with bid_book := b }, true)
  | none =>
    match eraseById id e.ask_book with
    | some a => ({ e with ask_book := a }, true)
    | none => (e, false)

/-- The walk of `MatchingEngine::match_incoming_order` over the passive
book: returns the emitted fills, the surviving passive book, and the
remaining aggressor quantity. -/
def matchWalk (aggressor_side : Side) (price : ℚ) (trade_id : ℕ) (timestamp : ℚ) :
    List Order → ℤ → List FillEvent × List Order × ℤ
  | [], remaining => ([], [], remaining)
  | o :: rest, remaining =>
    if remaining ≤ 0 then ([], o :: rest, remaining)
    else if (aggressor_side = Side.BUY ∧ o.price > price) ∨
            (aggressor_side = Side.SELL ∧ o.price < price) then
      ([], o :: rest, remaining)
    else
      let fill_qty := min remaining o.leaves_qty
      let leaves' := o.leaves_qty - fill_qty
      let f : FillEvent :=
        { order_id := o.order_id, trade_id := trade_id, side := o.side,
          price := o.price, fill_qty := fill_qty, leaves_qty := leaves',
          timestamp := timestamp }
      let res := matchWalk aggressor_side price trade_id timestamp rest
        (remaining - fill_qty)
      if leaves' = 0 then (f :: res.1, res.2.1, res.2.2)
      else (f :: res.1,
        { o with leaves_qty := leaves', updated_at := timestamp,
                 status := OrderStatus.PARTIALLY_FILLED } :: res.2.1, res.2.2)

/-- `MatchingEngine::match_incoming_order`: aggressor BUY hits resting asks,
aggressor SELL hits resting bids. Returns the updated engine and the fills. -/
def MatchingEngine.match_incoming_order (e : MatchingEngine)
    (aggressor_side : Side) (price : ℚ) (qty : ℤ) (trade_id : ℕ)
    (timestamp : ℚ) : MatchingEngine × List FillEvent :=
  match aggressor_side with
  | Side.BUY =>
    let res := matchWalk Side.BUY price trade_id timestamp e.ask_book qty
    ({ e with ask_book := res.2.1 }, res.1)
  | Side.SELL =>
    let res := matchWalk Side.SELL price trade_id timestamp e.bid_book qty
    ({ e with bid_book := res.2.1 }, res.1)

/-- The passive book that a given aggressor side matches against. -/
def MatchingEngine.passiveBook (e : MatchingEngine) : Side → List Order
  | Side.BUY => e.ask_book
  | Side.SELL => e.bid_book

end Engine
namespace Engine

/-- What a fill emitted by the walk records about the maker it filled. -/
def FillMatches (tid : ℕ) (ts : ℚ) (o : Order) (f : FillEvent) : Prop :=
  f.order_id = o.order_id ∧ f.trade_id = tid ∧ f.side = o.side ∧
    f.price = o.price ∧ f.fill_qty + f.leaves_qty = o.leaves_qty ∧
    f.timestamp = ts

/-- How the walk rewrites a matched maker: removed when fully filled, kept
with decremented leaves otherwise. -/
def updMaker (ts : ℚ) (o : Order) (f : FillEvent) : Option Order :=
  if f.leaves_qty = 0 then none
  else some { o with leaves_qty := f.leaves_qty, updated_at := ts,
                     status := OrderStatus.PARTIALLY_FILLED }

/-- Total filled quantity of a list of fills. -/
def sumFills (fills : List FillEvent) : ℤ := (fills.map (fun f => f.fill_qty)).sum

lemma matchWalk_spec (s : Side) (p : ℚ) (tid : ℕ) (ts : ℚ) :
    ∀ (book : List Order) (rem : ℤ),
      ∃ pre post,
        book = pre ++ post ∧
        List.Forall₂ (FillMatches tid ts) pre (matchWalk s p tid ts book rem).1 ∧
        (matchWalk s p tid ts book rem).2.1 =
          (List.zipWith (updMaker ts) pre
            (matchWalk s p tid ts book rem).1).reduceOption ++ post ∧
        (matchWalk s p tid ts book rem).2.2 =
          rem - sumFills (matchWalk s p tid ts book rem).1 := by
  intro book
  induction book with
  | nil =>
    intro rem
    exact ⟨[], [], rfl, List.Forall₂.nil, by simp [matchWalk],
      by simp [matchWalk, sumFills]⟩
  | cons o rest ih =>
    intro rem
    by_cases h1 : rem ≤ 0
    · refine ⟨[], o :: rest, rfl, ?_, ?_, ?_⟩ <;>
        simp [matchWalk, h1, sumFills]
    · by_cases h2 : (s = Side.BUY ∧ o.price > p) ∨ (s = Side.SELL ∧ o.price < p)
      · refine ⟨[], o :: rest, rfl, ?_, ?_, ?_⟩ <;>
          simp [matchWalk, h1, h2, sumFills]
      · obtain ⟨pre, post, hb, hf, hbook, hrem⟩ := ih (rem - min rem o.leaves_qty)
        by_cases h3 : o.leaves_qty - min rem o.leaves_qty = 0
        · refine ⟨o :: pre, post, by simp [hb], ?_, ?_, ?_⟩
          · simp only [matchWalk, if_neg h1, if_neg h2, if_pos h3]
            exact List.Forall₂.cons (by simp [FillMatches]) hf
          · simp only [matchWalk, if_neg h1, if_neg h2, if_pos h3]
            simpa [List.zipWith, updMaker, h3] using hbook
          · simp only [matchWalk, if_neg h1, if_neg h2, if_pos h3]
            simp [sumFills] at hrem ⊢
            omega
        · refine ⟨o :: pre, post, by simp [hb], ?_, ?_, ?_⟩
          · simp only [matchWalk, if_neg h1, if_neg h2, if_neg h3]
            exact List.Forall₂.cons (by simp [FillMatches]) hf
          · simp only [matchWalk, if_neg h1, if_neg h2, if_neg h3]
            simpa [List.zipWith, updMaker, h3] using hbook
          · simp only [matchWalk, if_neg h1, if_neg h2, if_neg h3]
            simp [sumFills] at hrem ⊢
            omega

end Engine

namespace Engine

lemma forall₂_exists_left {α β : Type} {R : α → β → Prop} :
    ∀ {l₁ : List α} {l₂ : List β}, List.Forall₂ R l₁ l₂ → ∀ {b : β}, b ∈ l₂ →
      ∃ a ∈ l₁, R a b := by
  intro l₁ l₂ h
  induction h with
  | nil => intro b hb; cases hb
  | cons hr _ ih =>
    intro b hb
    rcases List.mem_cons.mp hb with rfl | hb'
    · exact ⟨_, List.mem_cons_self _ _, hr⟩
    · obtain ⟨a, ha, hab⟩ := ih hb'
      exact ⟨a, List.mem_cons_of_mem _ ha, hab⟩

/-- C3: every fill emitted by `match_incoming_order` carries the price and
the side of the resting maker order it filled (looked up in the passive
book the aggressor matched against), independent of the aggressor's limit
price. -/
theorem C3_fill_price_is_maker_price (e : MatchingEngine) (s : Side)
    (limit : ℚ) (qty : ℤ) (tid : ℕ) (ts : ℚ) (f : FillEvent)
    (hf : f ∈ (e.match_incoming_order s limit qty tid ts).2) :
    ∃ o ∈ e.passiveBook s, f.order_id = o.order_id ∧ f.price = o.price ∧
      f.side = o.side := by
  have hfills : (e.match_incoming_order s limit qty tid ts).2 =
      (matchWalk s limit tid ts (e.passiveBook s) qty).1 := by
    cases s <;> rfl
  rw [hfills] at hf
  obtain ⟨pre, post, hb, hforall, -, -⟩ :=
    matchWalk_spec s limit tid ts (e.passiveBook s) qty
  obtain ⟨o, ho, hrel⟩ := forall₂_exists_left hforall hf
  exact ⟨o, by rw [hb]; exact List.mem_append_left _ ho,
    hrel.1, hrel.2.2.2.1, hrel.2.2.1⟩

/-- Witness for C3: a concrete book and matching call producing a fill. -/
theorem C3_fill_price_is_maker_price_witness :
    ∃ o ∈ ((MatchingEngine.empty.add_order
        (Order.mk' 1 Side.SELL 101 5 1)).1.passiveBook Side.BUY),
      (103 : ℚ) ≠ o.price ∧
      ({ order_id := 1, trade_id := 9, side := Side.SELL, price := 101,
         fill_qty := 3, leaves_qty := 2, timestamp := 4 } : FillEvent).order_id
          = o.order_id ∧
      ({ order_id := 1, trade_id := 9, side := Side.SELL, price := 101,
         fill_qty := 3, leaves_qty := 2, timestamp := 4 } : FillEvent).price
          = o.price ∧
      ({ order_id := 1, trade_id := 9, side := Side.SELL, price := 101,
         fill_qty := 3, leaves_qty := 2, timestamp := 4 } : FillEvent).side
          = o.side := by
  obtain ⟨o, ho, h⟩ := C3_fill_price_is_maker_price
    (MatchingEngine.empty.add_order (Order.mk' 1 Side.SELL 101 5 1)).1
    Side.BUY 103 3 9 4
    { order_id := 1, trade_id := 9, side := Side.SELL, price := 101,
      fill_qty := 3, leaves_qty := 2, timestamp := 4 }
    (by
      simp [MatchingEngine.empty, MatchingEngine.add_order, MatchingEngine.insert_ask,
        lowerBoundInsert, MatchingEngine.match_incoming_order, matchWalk,
        MatchingEngine.passiveBook, Order.mk']
      norm_num)
  refine ⟨o, ho, ?_, h⟩
  have : o.price = 101 := by
    norm_num [MatchingEngine.empty, MatchingEngine.add_order, MatchingEngine.insert_ask,
      lowerBoundInsert, MatchingEngine.passiveBook, Order.mk'] at ho
    rw [ho]
  rw [this]
  norm_num

end Engine

namespace Engine

lemma matchWalk_rem_nonneg (s : Side) (p : ℚ) (tid : ℕ) (ts : ℚ) :
    ∀ (book : List Order) (rem : ℤ), 0 ≤ rem →
      0 ≤ (matchWalk s p tid ts book rem).2.2 := by
  intro book
  induction book with
  | nil => intro rem h; simpa [matchWalk] using h
  | cons o rest ih =>
    intro rem h
    by_cases h1 : rem ≤ 0
    · simpa [matchWalk, h1] using h
    · by_cases h2 : (s = Side.BUY ∧ o.price > p) ∨ (s = Side.SELL ∧ o.price < p)
      · simpa [matchWalk, h1, h2] using h
      · have hrec := ih (rem - min rem o.leaves_qty) (by omega)
        by_cases h3 : o.leaves_qty - min rem o.leaves_qty = 0 <;>
          simpa [matchWalk, h1, h2, h3] using hrec

/-- C5: for `match_incoming_order` with `qty ≥ 0`, the total filled
quantity is at most `qty` and equals `qty` minus the aggressor quantity
left when the walk stops; the matched makers are an initial segment of the
passive book, each maker's `leaves_qty` dropping by exactly the `fill_qty`
of its fill and the maker removed from the surviving book exactly when its
remaining `leaves_qty` is 0 (as recorded by `updMaker`). -/
theorem C5_quantity_conservation (e : MatchingEngine) (s : Side) (limit : ℚ)
    (qty : ℤ) (tid : ℕ) (ts : ℚ) (hqty : 0 ≤ qty) :
    sumFills (e.match_incoming_order s limit qty tid ts).2 ≤ qty ∧
    sumFills (e.match_incoming_order s limit qty tid ts).2 =
      qty - (matchWalk s limit tid ts (e.passiveBook s) qty).2.2 ∧
    ∃ pre post,
      e.passiveBook s = pre ++ post ∧
      List.Forall₂ (FillMatches tid ts)
        pre (e.match_incoming_order s limit qty tid ts).2 ∧
      (e.match_incoming_order s limit qty tid ts).1.passiveBook s =
        (List.zipWith (updMaker ts)
          pre (e.match_incoming_order s limit qty tid ts).2).reduceOption ++ post := by
  have hfills : (e.match_incoming_order s limit qty tid ts).2 =
      (matchWalk s limit tid ts (e.passiveBook s) qty).1 := by
    cases s <;> rfl
  have hbook : (e.match_incoming_order s limit qty tid ts).1.passiveBook s =
      (matchWalk s limit tid ts (e.passiveBook s) qty).2.1 := by
    cases s <;> rfl
  obtain ⟨pre, post, hb, hforall, hsurv, hrem⟩ :=
    matchWalk_spec s limit tid ts (e.passiveBook s) qty
  have hnn := matchWalk_rem_nonneg s limit tid ts (e.passiveBook s) qty hqty
  refine ⟨?_, ?_, pre, post, hb, ?_, ?_⟩
  · rw [hfills]; omega
  · rw [hfills]; omega
  · rw [hfills]; exact hforall
  · rw [hbook, hfills]; exact hsurv

/-- Witness for C5: the spec's price-time sweep scenario (three resting
bids, incoming SELL at 99 for quantity 7). -/
theorem C5_quantity_conservation_witness :
    (0 : ℤ) ≤ 7 ∧
    sumFills ((((MatchingEngine.empty.add_order (Order.mk' 1 Side.BUY 100 5 1)).1.add_order
        (Order.mk' 2 Side.BUY 101 5 2)).1.add_order
        (Order.mk' 3 Side.BUY 99 5 3)).1.match_incoming_order Side.SELL 99 7 77 9).2 ≤ 7 :=
  ⟨by norm_num,
    (C5_quantity_conservation
      (((MatchingEngine.empty.add_order (Order.mk' 1 Side.BUY 100 5 1)).1.add_order
        (Order.mk' 2 Side.BUY 101 5 2)).1.add_order
        (Order.mk' 3 Side.BUY 99 5 3)).1
      Side.SELL 99 7 77 9 (by norm_num)).1⟩

end Engine

namespace Engine

/-- Weak bid-book priority: higher price first, then earlier (or equal)
creation time. This is the order `insert_bid` maintains. -/
def bidPriorityW (a b : Order) : Prop :=
  b.price < a.price ∨ (a.price = b.price ∧ a.created_at ≤ b.created_at)

/-- Weak ask-book priority: lower price first, then earlier (or equal)
creation time. This is the order `insert_ask` maintains. -/
def askPriorityW (a b : Order) : Prop :=
  a.price < b.price ∨ (a.price = b.price ∧ a.created_at ≤ b.created_at)

/-- The strict price-time priority of the passive book the given aggressor
matches against, as the claim states it: best price first (ascending maker
price for an aggressor BUY, descending for an aggressor SELL), and within
a price, strictly ascending `created_at`. -/
def strictPriority : Side → Order → Order → Prop
  | Side.BUY, a, b => a.price < b.price ∨ (a.price = b.price ∧ a.created_at < b.created_at)
  | Side.SELL, a, b => b.price < a.price ∨ (a.price = b.price ∧ a.created_at < b.created_at)

lemma mem_lowerBoundInsert {cmp : Order → Order → Bool} :
    ∀ {l : List Order} {o y : Order}, y ∈ lowerBoundInsert cmp l o →
      y = o ∨ y ∈ l := by
  intro l
  induction l with
  | nil => intro o y hy; simpa [lowerBoundInsert] using hy
  | cons x xs ih =>
    intro o y hy
    by_cases hc : cmp x o
    · simp only [lowerBoundInsert, if_pos hc, List.mem_cons] at hy
      rcases hy with rfl | hy'
      · exact Or.inr (List.mem_cons_self _ _)
      · rcases ih hy' with h | h
        · exact Or.inl h
        · exact Or.inr (List.mem_cons_of_mem _ h)
    · simp only [lowerBoundInsert, if_neg hc, List.mem_cons] at hy
      rcases hy with rfl | hy'
      · exact Or.inl rfl
      · exact Or.inr (by simpa using hy')

lemma pairwise_lowerBoundInsert {r : Order → Order → Prop}
    {cmp : Order → Order → Bool}
    (hT : Transitive r)
    (hc1 : ∀ x y, cmp x y = true → r x y)
    (hc2 : ∀ x y, cmp x y = false → r y x) :
    ∀ {l : List Order} (o : Order), l.Pairwise r →
      (lowerBoundInsert cmp l o).Pairwise r := by
  intro l
  induction l with
  | nil => intro o _; simp [lowerBoundInsert]
  | cons x xs ih =>
    intro o h
    obtain ⟨hx, hxs⟩ := List.pairwise_cons.mp h
    by_cases hc : cmp x o
    · rw [lowerBoundInsert, if_pos hc]
      refine List.pairwise_cons.mpr ⟨?_, ih o hxs⟩
      intro y hy
      rcases mem_lowerBoundInsert hy with rfl | hmem
      · exact hc1 _ _ hc
      · exact hx y hmem
    · rw [lowerBoundInsert, if_neg hc]
      refine List.pairwise_cons.mpr ⟨?_, h⟩
      intro y hy
      rcases List.mem_cons.mp hy with rfl | hmem
      · exact hc2 _ _ (by simpa using hc)
      · exact hT (hc2 _ _ (by simpa using hc)) (hx y hmem)

lemma bidPriorityW_trans : Transitive bidPriorityW := by
  intro a b c hab hbc
  rcases hab with h | ⟨h1, h2⟩ <;> rcases hbc with h' | ⟨h1', h2'⟩
  · exact Or.inl (lt_trans h' h)
  · exact Or.inl (h1' ▸ h)
  · exact Or.inl (h1 ▸ h')
  · exact Or.inr ⟨h1.trans h1', le_trans h2 h2'⟩

lemma askPriorityW_trans : Transitive askPriorityW := by
  intro a b c hab hbc
  rcases hab with h | ⟨h1, h2⟩ <;> rcases hbc with h' | ⟨h1', h2'⟩
  · exact Or.inl (lt_trans h h')
  · exact Or.inl (h1' ▸ h)
  · exact Or.inl (h1 ▸ h')
  · exact Or.inr ⟨h1.trans h1', le_trans h2 h2'⟩

lemma bidLess_true {x y : Order} (h : bidLess x y = true) : bidPriorityW x y := by
  unfold bidLess at h
  split_ifs at h with hp
  · exact Or.inl (by simpa using h)
  · exact Or.inr ⟨not_not.mp (by simpa using hp), le_of_lt (by simpa using h)⟩

lemma bidLess_false {x y : Order} (h : bidLess x y = false) : bidPriorityW y x := by
  unfold bidLess at h
  split_ifs at h with hp
  · have := (by simpa using h : ¬ y.price < x.price)
    have hne := (by simpa using hp : ¬ x.price = y.price)
    exact Or.inl (lt_of_le_of_ne (not_lt.mp this) hne)
  · have heq := not_not.mp (by simpa using hp)
    exact Or.inr ⟨heq.symm, not_lt.mp (by simpa using h)⟩

lemma askLess_true {x y : Order} (h : askLess x y = true) : askPriorityW x y := by
  unfold askLess at h
  split_ifs at h with hp
  · exact Or.inl (by simpa using h)
  · exact Or.inr ⟨not_not.mp (by simpa using hp), le_of_lt (by simpa using h)⟩

lemma askLess_false {x y : Order} (h : askLess x y = false) : askPriorityW y x := by
  unfold askLess at h
  split_ifs at h with hp
  · have := (by simpa using h : ¬ x.price < y.price)
    have hne := (by simpa using hp : ¬ x.price = y.price)
    exact Or.inl (lt_of_le_of_ne (not_lt.mp this) (fun e => hne e.symm))
  · have heq := not_not.mp (by simpa using hp)
    exact Or.inr ⟨heq.symm, not_lt.mp (by simpa using h)⟩

/-- The ordering invariant of both books. -/
def BooksOrdered (e : MatchingEngine) : Prop :=
  e.bid_book.Pairwise bidPriorityW ∧ e.ask_book.Pairwise askPriorityW

lemma add_order_booksOrdered {e : MatchingEngine} (o : Order)
    (h : BooksOrdered e) : BooksOrdered (e.add_order o).1 := by
  unfold MatchingEngine.add_order
  split_ifs with hrej
  · exact h
  · cases hs : o.side <;>
      simp only [MatchingEngine.insert_bid, MatchingEngine.insert_ask, hs]
    · exact ⟨pairwise_lowerBoundInsert bidPriorityW_trans
        (fun x y hh => bidLess_true hh) (fun x y hh => bidLess_false hh) _ h.1, h.2⟩
    · exact ⟨h.1, pairwise_lowerBoundInsert askPriorityW_trans
        (fun x y hh => askLess_true hh) (fun x y hh => askLess_false hh) _ h.2⟩

/-- A book built by a sequence of `add_order` calls, as in the claim. -/
def MatchingEngine.addAll (e : MatchingEngine) (os : List Order) : MatchingEngine :=
  os.foldl (fun e o => (e.add_order o).1) e

lemma addAll_booksOrdered_of (os : List Order) :
    ∀ (e : MatchingEngine), BooksOrdered e → BooksOrdered (e.addAll os) := by
  induction os with
  | nil => intro e h; exact h
  | cons o rest ih =>
    intro e h
    exact ih _ (add_order_booksOrdered o h)

lemma addAll_booksOrdered (os : List Order) :
    BooksOrdered (MatchingEngine.empty.addAll os) :=
  addAll_booksOrdered_of os _ (by constructor <;> simp [MatchingEngine.empty])

/-- C4 (amended): for a book built by `add_order` in which no two
same-price orders on the matched side share a `created_at`, and an
aggressor with positive quantity, the fills are emitted against an initial
segment of the passive book that is in strict price-time priority:
ascending maker price for an aggressor BUY, descending for an aggressor
SELL, and strictly ascending `created_at` within a price. -/
theorem C4_fill_ordering_amended (os : List Order) (s : Side) (limit : ℚ)
    (qty : ℤ) (tid : ℕ) (ts : ℚ) (_hqty : 0 < qty)
    (hdis : ((MatchingEngine.empty.addAll os).passiveBook s).Pairwise
      (fun a b => a.price = b.price → a.created_at ≠ b.created_at)) :
    ∃ makers rest,
      (MatchingEngine.empty.addAll os).passiveBook s = makers ++ rest ∧
      List.Forall₂ (FillMatches tid ts) makers
        ((MatchingEngine.empty.addAll os).match_incoming_order s limit qty tid ts).2 ∧
      makers.Pairwise (strictPriority s) := by
  have hord := addAll_booksOrdered os
  have hfills : ((MatchingEngine.empty.addAll os).match_incoming_order s limit qty tid ts).2 =
      (matchWalk s limit tid ts ((MatchingEngine.empty.addAll os).passiveBook s) qty).1 := by
    cases s <;> rfl
  obtain ⟨pre, post, hb, hforall, -, -⟩ :=
    matchWalk_spec s limit tid ts ((MatchingEngine.empty.addAll os).passiveBook s) qty
  refine ⟨pre, post, hb, by rw [hfills]; exact hforall, ?_⟩
  have hdis' : pre.Pairwise (fun a b => a.price = b.price → a.created_at ≠ b.created_at) :=
    (List.pairwise_append.mp (hb ▸ hdis)).1
  cases s
  case BUY =>
    have hweak : pre.Pairwise askPriorityW := by
      have h := hord.2
      rw [show (MatchingEngine.empty.addAll os).ask_book =
            (MatchingEngine.empty.addAll os).passiveBook Side.BUY from rfl, hb] at h
      exact (List.pairwise_append.mp h).1
    exact (hweak.and hdis').imp (fun hab => by
      rcases hab.1 with h | ⟨h1, h2⟩
      · exact Or.inl h
      · exact Or.inr ⟨h1, lt_of_le_of_ne h2 (hab.2 h1)⟩)
  case SELL =>
    have hweak : pre.Pairwise bidPriorityW := by
      have h := hord.1
      rw [show (MatchingEngine.empty.addAll os).bid_book =
            (MatchingEngine.empty.addAll os).passiveBook Side.SELL from rfl, hb] at h
      exact (List.pairwise_append.mp h).1
    exact (hweak.and hdis').imp (fun hab => by
      rcases hab.1 with h | ⟨h1, h2⟩
      · exact Or.inl h
      · exact Or.inr ⟨h1, lt_of_le_of_ne h2 (hab.2 h1)⟩)

/-- Witness for the amended C4 at a concrete book with distinct creation
times at a shared price. -/
theorem C4_fill_ordering_amended_witness :
    ∃ makers rest,
      (MatchingEngine.empty.addAll
        [Order.mk' 1 Side.BUY 100 5 1, Order.mk' 2 Side.BUY 100 5 2]).passiveBook
          Side.SELL = makers ++ rest ∧
      List.Forall₂ (FillMatches 5 9) makers
        ((MatchingEngine.empty.addAll
          [Order.mk' 1 Side.BUY 100 5 1, Order.mk' 2 Side.BUY 100 5 2]).match_incoming_order
            Side.SELL 100 10 5 9).2 ∧
      makers.Pairwise (strictPriority Side.SELL) :=
  C4_fill_ordering_amended
    [Order.mk' 1 Side.BUY 100 5 1, Order.mk' 2 Side.BUY 100 5 2]
    Side.SELL 100 10 5 9 (by norm_num)
    (by
      norm_num [MatchingEngine.addAll, MatchingEngine.add_order,
        MatchingEngine.insert_bid, lowerBoundInsert, bidLess,
        MatchingEngine.passiveBook, MatchingEngine.empty, Order.mk', List.foldl])

/-- Counterexample to C4 as stated: a book built by two `add_order` calls
with the same price and the same `created_at` is matched in reverse
insertion order, so no strict-`created_at` ordering of the matched makers
exists, although the aggressor quantity is positive. -/
theorem C4_fill_ordering_counterexample :
    (0 : ℤ) < 10 ∧
    ¬ ∃ makers rest,
        (MatchingEngine.empty.addAll
          [Order.mk' 1 Side.BUY 100 5 7, Order.mk' 2 Side.BUY 100 5 7]).passiveBook
            Side.SELL = makers ++ rest ∧
        List.Forall₂ (FillMatches 5 9) makers
          ((MatchingEngine.empty.addAll
            [Order.mk' 1 Side.BUY 100 5 7, Order.mk' 2 Side.BUY 100 5 7]).match_incoming_order
              Side.SELL 100 10 5 9).2 ∧
        makers.Pairwise (strictPriority Side.SELL) := by
  constructor
  · norm_num
  · rintro ⟨makers, rest, happ, hf, hpair⟩
    have hbook : (MatchingEngine.empty.addAll
        [Order.mk' 1 Side.BUY 100 5 7, Order.mk' 2 Side.BUY 100 5 7]).passiveBook
          Side.SELL =
        [{ order_id := 2, side := Side.BUY, price := 100, original_qty := 5,
           leaves_qty := 5, status := OrderStatus.ACKNOWLEDGED, created_at := 7,
           updated_at := 7 },
         { order_id := 1, side := Side.BUY, price := 100, original_qty := 5,
           leaves_qty := 5, status := OrderStatus.ACKNOWLEDGED, created_at := 7,
           updated_at := 7 }] := by
      norm_num [MatchingEngine.addAll, MatchingEngine.add_order,
        MatchingEngine.insert_bid, lowerBoundInsert, bidLess,
        MatchingEngine.passiveBook, MatchingEngine.empty, Order.mk', List.foldl]
    have hfills : ((MatchingEngine.empty.addAll
        [Order.mk' 1 Side.BUY 100 5 7, Order.mk' 2 Side.BUY 100 5 7]).match_incoming_order
          Side.SELL 100 10 5 9).2 =
        [{ order_id := 2, trade_id := 5, side := Side.BUY, price := 100,
           fill_qty := 5, leaves_qty := 0, timestamp := 9 },
         { order_id := 1, trade_id := 5, side := Side.BUY, price := 100,
           fill_qty := 5, leaves_qty := 0, timestamp := 9 }] := by
      norm_num [MatchingEngine.addAll, MatchingEngine.add_order,
        MatchingEngine.insert_bid, lowerBoundInsert, bidLess,
        MatchingEngine.match_incoming_order, matchWalk,
        MatchingEngine.empty, Order.mk', List.foldl]
    rw [hbook] at happ
    rw [hfills] at hf
    have hlen : makers.length = 2 := by
      have := List.Forall₂.length_eq hf
      simpa using this
    match makers, hlen with
    | [a, b], _ =>
      have hrest : rest = [] := by
        have := congrArg List.length happ
        simp at this
        exact this
      rw [hrest, List.append_nil] at happ
      injection happ with ha h2
      injection h2 with hb h3
      have hrel := (List.pairwise_cons.mp hpair).1 b (List.mem_cons_self _ _)
      rw [← ha, ← hb] at hrel
      rcases hrel with hlt | ⟨-, hct⟩
      · norm_num at hlt
      · norm_num at hct

end Engine

namespace Engine

/-- `struct Trade` from `MarketDataEvent.h`. -/
structure Trade where
  aggressor_side : Side
  price : ℚ
  size : ℤ
  trade_id : ℕ
  timestamp : ℚ
deriving DecidableEq, Repr

/-- `struct OrderLevel` from `MarketDataEvent.h`. -/
structure OrderLevel where
  price : ℚ
  size : ℤ
  order_id : ℕ
  timestamp : ℚ
deriving DecidableEq, Repr, Inhabited

/-- `struct PartialFillEvent` from `MarketDataEvent.h`. -/
structure PartialFillEvent where
  order_id : ℕ
  price : ℚ
  filled_size : ℤ
  remaining_size : ℤ
  timestamp : ℚ
deriving DecidableEq, Repr

/-- `struct MarketDataEvent` from `MarketDataEvent.h`. -/
structure MarketDataEvent where
  instrument : String
  best_bid_price : ℚ
  best_ask_price : ℚ
  best_bid_size : ℤ
  best_ask_size : ℤ
  bid_levels : List OrderLevel
  ask_levels : List OrderLevel
  trades : List Trade
  partial_fills : List PartialFillEvent
  mm_fills : List FillEvent
  timestamp : ℚ
  sequence_number : ℤ
deriving DecidableEq, Repr

/-- `enum class RiskState` from `include/RiskManager.h`. -/
inductive RiskState where
  | Normal
  | Warning
  | Breached
  | KillSwitch
deriving DecidableEq, Repr

/-- `static_cast<int>` on `RiskState`, as used by the worst-severity
aggregation. -/
def RiskState.sev : RiskState → ℕ
  | .Normal => 0
  | .Warning => 1
  | .Breached => 2
  | .KillSwitch => 3

/-- `enum class RiskRuleId` from `include/RiskManager.h`. -/
inductive RiskRuleId where
  | MaxNetPosition
  | MaxNotionalExposure
  | MaxDrawdown
  | MaxQuoteRate
  | MaxCancelRate
  | StaleMarketData
  | MaxQuoteSpread
deriving DecidableEq, Repr

/-- `struct RiskRuleResult` from `include/RiskManager.h`. -/
structure RiskRuleResult where
  rule_id : RiskRuleId
  level : RiskState
  current_value : ℚ
  limit_value : ℚ
  tag : String
deriving DecidableEq, Repr

/-- `struct RiskConfig` from `include/RiskManager.h`, with its defaults. -/
structure RiskConfig where
  max_net_position : ℤ := 1000
  max_notional_exposure : ℚ := 500000
  max_drawdown : ℚ := 10000
  max_quotes_per_second : ℚ := 50
  max_cancels_per_second : ℚ := 50
  rate_window_seconds : ℚ := 1
  max_stale_data_ms : ℚ := 5000
  warning_threshold_pct : ℚ := 80/100
  cooldown_seconds : ℚ := 5
  max_quote_spread : ℚ := 1/2
  min_quote_size : ℤ := 1
  max_quote_size : ℤ := 100
deriving DecidableEq, Repr

/-- The member state of `class RiskManager` from `include/RiskManager.h`.
A default-constructed `time_point` is the epoch, i.e. 0 ms. -/
structure RiskManager where
  config : RiskConfig := {}
  state : RiskState := RiskState.Normal
  last_results : List RiskRuleResult := []
  high_water_mark : ℚ := 0
  drawdown : ℚ := 0
  hwm_initialized : Bool := false
  quote_timestamps : List ℚ := []
  cancel_timestamps : List ℚ := []
  breach_timestamp : ℚ := 0
  breach_timestamp_set : Bool := false
  last_md_timestamp : ℚ := 0
  last_md_timestamp_set : Bool := false
deriving DecidableEq, Repr

/-- `RiskManager::classify(ratio)`. -/
def RiskManager.classify (rm : RiskManager) (ratio : ℚ) : RiskState :=
  if ratio ≥ 1 then RiskState.Breached
  else if ratio ≥ rm.config.warning_threshold_pct then RiskState.Warning
  else RiskState.Normal

/-- `RiskManager::eval_max_net_position`. -/
def RiskManager.eval_max_net_position (rm : RiskManager) (acct : Accounting) :
    RiskRuleResult :=
  let current : ℚ := |(acct.position : ℚ)|
  let limit : ℚ := (rm.config.max_net_position : ℚ)
  { rule_id := RiskRuleId.MaxNetPosition, level := rm.classify (current / limit),
    current_value := current, limit_value := limit, tag := "net_position" }

/-- `RiskManager::eval_max_notional_exposure`. -/
def RiskManager.eval_max_notional_exposure (rm : RiskManager) (acct : Accounting)
    (mark_price : ℚ) : RiskRuleResult :=
  let current := acct.gross_exposure mark_price
  let limit := rm.config.max_notional_exposure
  { rule_id := RiskRuleId.MaxNotionalExposure, level := rm.classify (current / limit),
    current_value := current, limit_value := limit, tag := "gross_exposure" }

/-- `RiskManager::eval_max_drawdown` (updates the high-water mark and the
cached drawdown). -/
def RiskManager.eval_max_drawdown (rm : RiskManager) (acct : Accounting) :
    RiskManager × RiskRuleResult :=
  let pnl := acct.net_pnl
  let hwm := if ¬ rm.hwm_initialized then pnl
             else if pnl > rm.high_water_mark then pnl
             else rm.high_water_mark
  let dd := hwm - pnl
  let rm' := { rm with high_water_mark := hwm, hwm_initialized := true, drawdown := dd }
  let limit := rm.config.max_drawdown
  (rm', { rule_id := RiskRuleId.MaxDrawdown, level := rm.classify (dd / limit),
          current_value := dd, limit_value := limit, tag := "drawdown" })

/-- `RiskManager::eval_max_quote_rate` (prunes the sliding window). -/
def RiskManager.eval_max_quote_rate (rm : RiskManager) (now : ℚ) :
    RiskManager × RiskRuleResult :=
  let cutoff := now - rm.config.rate_window_seconds * 1000
  let kept := rm.quote_timestamps.dropWhile (fun t => t < cutoff)
  let current : ℚ := (kept.length : ℚ) / rm.config.rate_window_seconds
  let limit := rm.config.max_quotes_per_second
  ({ rm with quote_timestamps := kept },
   { rule_id := RiskRuleId.MaxQuoteRate, level := rm.classify (current / limit),
     current_value := current, limit_value := limit, tag := "quote_rate" })

/-- `RiskManager::eval_max_cancel_rate` (prunes the sliding window). -/
def RiskManager.eval_max_cancel_rate (rm : RiskManager) (now : ℚ) :
    RiskManager × RiskRuleResult :=
  let cutoff := now - rm.config.rate_window_seconds * 1000
  let kept := rm.cancel_timestamps.dropWhile (fun t => t < cutoff)
  let current : ℚ := (kept.length : ℚ) / rm.config.rate_window_seconds
  let limit := rm.config.max_cancels_per_second
  ({ rm with cancel_timestamps := kept },
   { rule_id := RiskRuleId.MaxCancelRate, level := rm.classify (current / limit),
     current_value := current, limit_value := limit, tag := "cancel_rate" })

/-- `RiskManager::eval_stale_market_data`: the first observation is Normal
and records the reference timestamp; afterwards the whole-millisecond gap
to the previous event is classified. -/
def RiskManager.eval_stale_market_data (rm : RiskManager) (md_ts : ℚ) :
    RiskManager × RiskRuleResult :=
  if ¬ rm.last_md_timestamp_set then
    ({ rm with last_md_timestamp := md_ts, last_md_timestamp_set := true },
     { rule_id := RiskRuleId.StaleMarketData, level := RiskState.Normal,
       current_value := 0, limit_value := rm.config.max_stale_data_ms,
       tag := "first_tick" })
  else
    let current_ms : ℚ := ((⌊md_ts - rm.last_md_timestamp⌋ : ℤ) : ℚ)
    let limit := rm.config.max_stale_data_ms
    ({ rm with last_md_timestamp := md_ts },
     { rule_id := RiskRuleId.StaleMarketData, level := rm.classify (current_ms / limit),
       current_value := current_ms, limit_value := limit, tag := "stale_ms" })

/-- `RiskManager::eval_max_quote_spread`. -/
def RiskManager.eval_max_quote_spread (rm : RiskManager) (md : MarketDataEvent) :
    RiskRuleResult :=
  let spread := md.best_ask_price - md.best_bid_price
  let limit := rm.config.max_quote_spread
  { rule_id := RiskRuleId.MaxQuoteSpread, level := rm.classify (spread / limit),
    current_value := spread, limit_value := limit, tag := "spread" }

/-- The rule-evaluation phase of `RiskManager::evaluate`: runs the seven
rules in order, threading the mutations. -/
def RiskManager.evalRules (rm : RiskManager) (acct : Accounting)
    (md : MarketDataEvent) (mark_price : ℚ) : RiskManager × List RiskRuleResult :=
  let r1 := rm.eval_max_net_position acct
  let r2 := rm.eval_max_notional_exposure acct mark_price
  let (rm1, r3) := rm.eval_max_drawdown acct
  let (rm2, r4) := rm1.eval_max_quote_rate md.timestamp
  let (rm3, r5) := rm2.eval_max_cancel_rate md.timestamp
  let (rm4, r6) := rm3.eval_stale_market_data md.timestamp
  let r7 := rm4.eval_max_quote_spread md
  (rm4, [r1, r2, r3, r4, r5, r6, r7])

/-- The worst-severity aggregation loop of `RiskManager::evaluate`. -/
def worstSeverity (results : List RiskRuleResult) : RiskState :=
  results.foldl (fun w r => if r.level.sev > w.sev then r.level else w)
    RiskState.Normal

/-- `RiskManager::evaluate`: a no-op in KillSwitch; otherwise evaluates the
seven rules, aggregates the worst severity, and steps the state machine. -/
def RiskManager.evaluate (rm : RiskManager) (acct : Accounting)
    (md : MarketDataEvent) (mark_price : ℚ) : RiskManager × RiskState :=
  if rm.state = RiskState.KillSwitch then (rm, rm.state)
  else
    let er := rm.evalRules acct md mark_price
    let rm' := { er.1 with last_results := er.2 }
    let worst := worstSeverity er.2
    let rm'' :=
      match rm'.state with
      | RiskState.Normal | RiskState.Warning =>
        if worst = RiskState.Breached then
          { rm' with state := RiskState.Breached, breach_timestamp := md.timestamp,
                     breach_timestamp_set := true }
        else { rm' with state := worst }
      | RiskState.Breached =>
        if worst = RiskState.Normal ∧ rm'.breach_timestamp_set then
          if (md.timestamp - rm'.breach_timestamp) / 1000 ≥ rm'.config.cooldown_seconds
          then { rm' with state := RiskState.Normal }
          else rm'
        else rm'
      | RiskState.KillSwitch => rm'
    (rm'', rm''.state)

/-- `RiskManager::engage_kill_switch`. -/
def RiskManager.engage_kill_switch (rm : RiskManager) : RiskManager :=
  { rm with state := RiskState.KillSwitch }

/-- `RiskManager::reset_kill_switch`: re-aggregates the cached rule results;
all-Normal goes to Normal, otherwise to Breached without touching the
breach timestamp. -/
def RiskManager.reset_kill_switch (rm : RiskManager) : RiskManager :=
  if rm.state ≠ RiskState.KillSwitch then rm
  else if worstSeverity rm.last_results = RiskState.Normal then
    { rm with state := RiskState.Normal }
  else
    { rm with state := RiskState.Breached }

/-- `RiskManager::record_quote`. -/
def RiskManager.record_quote (rm : RiskManager) (ts : ℚ) : RiskManager :=
  { rm with quote_timestamps := rm.quote_timestamps ++ [ts] }

/-- `RiskManager::record_cancel`. -/
def RiskManager.record_cancel (rm : RiskManager) (ts : ℚ) : RiskManager :=
  { rm with cancel_timestamps := rm.cancel_timestamps ++ [ts] }

/-- `RiskManager::is_quoting_allowed`. -/
def RiskManager.is_quoting_allowed (rm : RiskManager) : Bool :=
  rm.state = RiskState.Normal ∨ rm.state = RiskState.Warning

end Engine

namespace Engine

lemma evalRules_preserves (rm : RiskManager) (acct : Accounting)
    (md : MarketDataEvent) (mark : ℚ) :
    (rm.evalRules acct md mark).1.state = rm.state ∧
    (rm.evalRules acct md mark).1.breach_timestamp = rm.breach_timestamp ∧
    (rm.evalRules acct md mark).1.breach_timestamp_set = rm.breach_timestamp_set ∧
    (rm.evalRules acct md mark).1.config = rm.config := by
  simp only [RiskManager.evalRules, RiskManager.eval_max_drawdown,
    RiskManager.eval_max_quote_rate, RiskManager.eval_max_cancel_rate,
    RiskManager.eval_stale_market_data]
  split_ifs <;> simp

/-- C7: from a Breached state, `evaluate` returns Normal exactly when the
worst severity across the seven rule results at this tick is Normal, a
breach timestamp is latched, and at least `cooldown_seconds` have elapsed
since it; in every other case the state remains Breached, and in
particular `evaluate` never moves from Breached to Warning. -/
theorem C7_breached_recovery (rm : RiskManager) (acct : Accounting)
    (md : MarketDataEvent) (mark : ℚ) (hb : rm.state = RiskState.Breached) :
    ((rm.evaluate acct md mark).2 = RiskState.Normal ↔
      (worstSeverity (rm.evalRules acct md mark).2 = RiskState.Normal ∧
       rm.breach_timestamp_set = true ∧
       (md.timestamp - rm.breach_timestamp) / 1000 ≥ rm.config.cooldown_seconds)) ∧
    ((rm.evaluate acct md mark).2 = RiskState.Normal ∨
     (rm.evaluate acct md mark).2 = RiskState.Breached) := by
  obtain ⟨hst, hbt, hbs, hcfg⟩ := evalRules_preserves rm acct md mark
  have hred : (rm.evalRules acct md mark).1.state = RiskState.Breached := hst.trans hb
  simp only [RiskManager.evaluate, hb]
  rw [if_neg (by simp)]
  simp only [hred, hbt, hbs, hcfg]
  split_ifs with hA hB
  · refine ⟨⟨fun _ => ⟨hA.1, hA.2, hB⟩, fun _ => rfl⟩, Or.inl rfl⟩
  · refine ⟨⟨fun h => absurd h (by decide), fun h => absurd h.2.2 hB⟩, Or.inr rfl⟩
  · refine ⟨⟨fun h => absurd h (by decide), fun h => absurd ⟨h.1, h.2.1⟩ hA⟩, Or.inr rfl⟩

end Engine

namespace Engine

def C8_acct : Accounting := Accounting.init 100000

def C8_md1 : MarketDataEvent :=
  { instrument := "XYZ", best_bid_price := 100, best_ask_price := 100 + 9/20,
    best_bid_size := 1, best_ask_size := 1, bid_levels := [], ask_levels := [],
    trades := [], partial_fills := [], mm_fills := [], timestamp := 1000,
    sequence_number := 1 }

def C8_md2 : MarketDataEvent :=
  { instrument := "XYZ", best_bid_price := 100, best_ask_price := 100 + 3/5,
    best_bid_size := 1, best_ask_size := 1, bid_levels := [], ask_levels := [],
    trades := [], partial_fills := [], mm_fills := [], timestamp := 2000,
    sequence_number := 2 }

def C8_rm3 : RiskManager :=
  ((({} : RiskManager).evaluate C8_acct C8_md1 100).1.engage_kill_switch).reset_kill_switch

/-- C8 (code-bug exhibit): from a fresh RiskManager, a Warning tick is
cached, the kill switch is engaged and then reset, leaving the state
Breached with no latched breach timestamp; the next `evaluate`, although
its worst rule severity is Breached, still does not set the breach
timestamp (contrary to the claim and to the comment in
`RiskManager::reset_kill_switch`), and the state stays Breached. -/
theorem C8_reset_kill_switch_timestamp_bug :
    C8_rm3.state = RiskState.Breached ∧
    C8_rm3.breach_timestamp_set = false ∧
    worstSeverity (C8_rm3.evalRules C8_acct C8_md2 100).2 = RiskState.Breached ∧
    (C8_rm3.evaluate C8_acct C8_md2 100).1.breach_timestamp_set = false ∧
    (C8_rm3.evaluate C8_acct C8_md2 100).2 = RiskState.Breached := by
  refine ⟨?_, ?_, ?_, ?_, ?_⟩ <;>
    norm_num +decide [C8_rm3, C8_acct, C8_md1, C8_md2, RiskManager.evaluate,
      RiskManager.evalRules, RiskManager.eval_max_net_position,
      RiskManager.eval_max_notional_exposure, RiskManager.eval_max_drawdown,
      RiskManager.eval_max_quote_rate, RiskManager.eval_max_cancel_rate,
      RiskManager.eval_stale_market_data, RiskManager.eval_max_quote_spread,
      RiskManager.classify, worstSeverity, RiskState.sev,
      RiskManager.engage_kill_switch, RiskManager.reset_kill_switch,
      Accounting.init, Accounting.net_pnl, Accounting.total_pnl,
      Accounting.gross_exposure]

end Engine

namespace Engine

/-- A Breached risk manager with a latched breach timestamp, used to
witness C7. -/
def C7_rm : RiskManager :=
  { state := RiskState.Breached, breach_timestamp := 0, breach_timestamp_set := true }

/-- A benign market event 10 seconds after the latched breach. -/
def C7_md : MarketDataEvent :=
  { instrument := "XYZ", best_bid_price := 100, best_ask_price := 100 + 1/5,
    best_bid_size := 1, best_ask_size := 1, bid_levels := [], ask_levels := [],
    trades := [], partial_fills := [], mm_fills := [], timestamp := 10000,
    sequence_number := 1 }

/-- Witness for C7 at a concrete Breached state. -/
theorem C7_breached_recovery_witness :
    C7_rm.state = RiskState.Breached ∧
    (((C7_rm.evaluate (Accounting.init 100000) C7_md 100).2 = RiskState.Normal ↔
      (worstSeverity (C7_rm.evalRules (Accounting.init 100000) C7_md 100).2 =
          RiskState.Normal ∧
       C7_rm.breach_timestamp_set = true ∧
       (C7_md.timestamp - C7_rm.breach_timestamp) / 1000 ≥
          C7_rm.config.cooldown_seconds)) ∧
     ((C7_rm.evaluate (Accounting.init 100000) C7_md 100).2 = RiskState.Normal ∨
      (C7_rm.evaluate (Accounting.init 100000) C7_md 100).2 = RiskState.Breached)) :=
  ⟨rfl, C7_breached_recovery C7_rm (Accounting.init 100000) C7_md 100 rfl⟩

end Engine

namespace Engine

/-- `struct StrategySnapshot` from `include/Strategy.h`. -/
structure StrategySnapshot where
  best_bid : ℚ := 0
  best_ask : ℚ := 0
  mid_price : ℚ := 0
  bid_levels : List OrderLevel := []
  ask_levels : List OrderLevel := []
  trades : List Trade := []
  position : ℤ := 0
  max_position : ℤ := 1000
  timestamp : ℚ := 0
  sequence_number : ℤ := 0
deriving DecidableEq, Repr

/-- `struct QuoteDecision` from `include/Strategy.h`. -/
structure QuoteDecision where
  bid_price : ℚ := 0
  ask_price : ℚ := 0
  bid_size : ℤ := 0
  ask_size : ℤ := 0
  should_quote : Bool := true
deriving DecidableEq, Repr

/-- `class RollingVolatility` from `include/RollingEstimators.h`: a bounded
deque of mids (head = front) and of simple returns. -/
structure RollingVolatility where
  window : ℕ := 100
  mids : List ℚ := []
  returns : List ℚ := []
deriving DecidableEq, Repr

/-- `RollingVolatility::on_mid`. -/
def RollingVolatility.on_mid (rv : RollingVolatility) (mid : ℚ) : RollingVolatility :=
  let returns' :=
    match rv.mids.getLast? with
    | some prev =>
      if prev > 0 then
        let rs := rv.returns ++ [(mid - prev) / prev]
        if rs.length > rv.window then rs.tail else rs
      else rv.returns
    | none => rv.returns
  let ms := rv.mids ++ [mid]
  let mids' := if ms.length > rv.window + 1 then ms.tail else ms
  { rv with mids := mids', returns := returns' }

/-- The radicand computed by `RollingVolatility::sigma`: the sample
variance of the windowed returns (denominator n−1), 0 when fewer than two
returns are available. -/
def RollingVolatility.sigmaSq (rv : RollingVolatility) : ℚ :=
  if rv.returns.length < 2 then 0
  else
    let n : ℚ := (rv.returns.length : ℚ)
    let mean := rv.returns.sum / n
    let sq_sum := (rv.returns.map (fun r => (r - mean) * (r - mean))).sum
    sq_sum / (n - 1)

/-- `RollingVolatility::sigma`, parameterized by a square-root kernel
(`std::sqrt` is floating point and is kept abstract). -/
def RollingVolatility.sigma (rv : RollingVolatility) (sqrtQ : ℚ → ℚ) : ℚ :=
  if rv.returns.length < 2 then 0 else sqrtQ rv.sigmaSq

/-- `class RollingOFI` from `include/RollingEstimators.h`. -/
structure RollingOFI where
  window : ℕ := 50
  signed_volumes : List ℚ := []
deriving DecidableEq, Repr

/-- `RollingOFI::on_trades`. -/
def RollingOFI.on_trades (ro : RollingOFI) (trades : List Trade) : RollingOFI :=
  trades.foldl (fun acc t =>
    let sv : ℚ := if t.aggressor_side = Side.BUY then (t.size : ℚ) else -(t.size : ℚ)
    let vs := acc.signed_volumes ++ [sv]
    { acc with signed_volumes := if vs.length > acc.window then vs.tail else vs }) ro

/-- `RollingOFI::normalized_ofi`. -/
def RollingOFI.normalized_ofi (ro : RollingOFI) : ℚ :=
  if ro.signed_volumes = [] then 0
  else
    let net := ro.signed_volumes.sum
    let total := (ro.signed_volumes.map (fun v => |v|)).sum
    if total = 0 then 0 else net / total

/-- `struct AvellanedaStoikovConfig` from
`strategies/AvellanedaStoikovStrategy.h`, with its defaults. -/
structure AvellanedaStoikovConfig where
  gamma : ℚ := 1/10
  kappa : ℚ := 3/2
  T : ℚ := 1
  min_spread_bps : ℚ := 5
  max_spread_bps : ℚ := 200
  ofi_spread_factor : ℚ := 1/2
  base_size : ℤ := 5
  size_inventory_scale : ℚ := 1
  toxic_ofi_threshold : ℚ := 7/10
  pull_on_toxic : Bool := false
  vol_window : ℕ := 100
  ofi_window : ℕ := 50
deriving DecidableEq, Repr

/-- The member state of `class AvellanedaStoikovStrategy`. -/
structure AvellanedaStoikovStrategy where
  config : AvellanedaStoikovConfig
  vol_estimator : RollingVolatility
  ofi_estimator : RollingOFI
deriving DecidableEq, Repr

/-- The `AvellanedaStoikovStrategy(cfg)` constructor. -/
def AvellanedaStoikovStrategy.init (cfg : AvellanedaStoikovConfig) :
    AvellanedaStoikovStrategy :=
  { config := cfg,
    vol_estimator := { window := cfg.vol_window, mids := [], returns := [] },
    ofi_estimator := { window := cfg.ofi_window, signed_volumes := [] } }

/-- `static_cast<int>` on a double: truncation toward zero. -/
def truncQ (q : ℚ) : ℤ := q.num / (q.den : ℤ)

/-- `AvellanedaStoikovStrategy::compute_quotes`, parameterized by
square-root and natural-logarithm kernels (floating point in the source).
Returns the updated strategy state and the decision. -/
def AvellanedaStoikovStrategy.compute_quotes (st : AvellanedaStoikovStrategy)
    (sqrtQ logQ : ℚ → ℚ) (snap : StrategySnapshot) :
    AvellanedaStoikovStrategy × QuoteDecision :=
  let vol' := st.vol_estimator.on_mid snap.mid_price
  let ofi' := st.ofi_estimator.on_trades snap.trades
  let st' := { st with vol_estimator := vol', ofi_estimator := ofi' }
  let sigma := vol'.sigma sqrtQ
  let ofi := ofi'.normalized_ofi
  let q : ℚ := (snap.position : ℚ)
  let q_max : ℚ := (snap.max_position : ℚ)
  let gamma := st.config.gamma
  let kappa := st.config.kappa
  let T := st.config.T
  let sigma2 := sigma * sigma
  let reservation := snap.mid_price - q * gamma * sigma2 * T
  let optimal_spread0 := gamma * sigma2 * T + (2 / gamma) * logQ (1 + gamma / kappa)
  let optimal_spread1 := optimal_spread0 * (1 + st.config.ofi_spread_factor * |ofi|)
  let min_spread := st.config.min_spread_bps * snap.mid_price / 10000
  let max_spread := st.config.max_spread_bps * snap.mid_price / 10000
  let optimal_spread := max min_spread (min optimal_spread1 max_spread)
  let bid_price := reservation - optimal_spread / 2
  let ask_price := reservation + optimal_spread / 2
  if |ofi| > st.config.toxic_ofi_threshold ∧ st.config.pull_on_toxic then
    (st', { should_quote := false })
  else
    let inv_ratio0 : ℚ := if q_max > 0 then q / q_max else 0
    let inv_ratio := max (-1) (min 1 inv_ratio0)
    let bid_size_d := (st.config.base_size : ℚ) * (1 - inv_ratio * st.config.size_inventory_scale)
    let ask_size_d := (st.config.base_size : ℚ) * (1 + inv_ratio * st.config.size_inventory_scale)
    let bid_size := max 1 (truncQ bid_size_d)
    let ask_size := max 1 (truncQ ask_size_d)
    (st', { bid_price := bid_price, ask_price := ask_price,
            bid_size := bid_size, ask_size := ask_size, should_quote := true })

end Engine

namespace Engine

lemma compute_quotes_fst (st : AvellanedaStoikovStrategy)
    (sqrtQ logQ : ℚ → ℚ) (snap : StrategySnapshot) :
    (st.compute_quotes sqrtQ logQ snap).1 =
      { st with vol_estimator := st.vol_estimator.on_mid snap.mid_price,
                ofi_estimator := st.ofi_estimator.on_trades snap.trades } := by
  simp only [AvellanedaStoikovStrategy.compute_quotes]
  split_ifs <;> rfl

lemma compute_quotes_should_quote (st : AvellanedaStoikovStrategy)
    (sqrtQ logQ : ℚ → ℚ) (snap : StrategySnapshot) :
    ((st.compute_quotes sqrtQ logQ snap).2.should_quote = false ↔
      (|(st.ofi_estimator.on_trades snap.trades).normalized_ofi| >
          st.config.toxic_ofi_threshold ∧ st.config.pull_on_toxic = true)) := by
  simp only [AvellanedaStoikovStrategy.compute_quotes]
  split_ifs with h
  · simpa using h
  · simp only [not_and] at h
    constructor
    · intro hh; simp at hh
    · intro hh
      exact absurd (h hh.1) (by simp [hh.2])

/-- The reservation-price quoter of the toxic-OFI scenario: threshold 0.5,
pull-on-toxic set. -/
def C10_cfg : AvellanedaStoikovConfig :=
  { toxic_ofi_threshold := 1/2, pull_on_toxic := true }

/-- A snapshot carrying a single BUY-aggressor trade. -/
def C10_snap : StrategySnapshot :=
  { best_bid := 100, best_ask := 100 + 1/5, mid_price := 100 + 1/10,
    trades := [{ aggressor_side := Side.BUY, price := 100 + 1/5, size := 5,
                 trade_id := 1, timestamp := 0 }] }

/-- The strategy state after `n` `compute_quotes` calls on such
snapshots. -/
def C10_state (sqrtQ logQ : ℚ → ℚ) : ℕ → AvellanedaStoikovStrategy
  | 0 => AvellanedaStoikovStrategy.init C10_cfg
  | n + 1 => ((C10_state sqrtQ logQ n).compute_quotes sqrtQ logQ C10_snap).1

/-- The tenth `compute_quotes` call of the scenario. -/
def C10_run (sqrtQ logQ : ℚ → ℚ) : AvellanedaStoikovStrategy × QuoteDecision :=
  (C10_state sqrtQ logQ 9).compute_quotes sqrtQ logQ C10_snap

lemma C10_state_spec (sqrtQ logQ : ℚ → ℚ) (n : ℕ) (hn : n ≤ 10) :
    (C10_state sqrtQ logQ n).config = C10_cfg ∧
    (C10_state sqrtQ logQ n).ofi_estimator.window = 50 ∧
    (C10_state sqrtQ logQ n).ofi_estimator.signed_volumes = List.replicate n 5 := by
  induction n with
  | zero => simp [C10_state, AvellanedaStoikovStrategy.init, C10_cfg]
  | succ k ih =>
    obtain ⟨hc, hw, hv⟩ := ih (by omega)
    simp only [C10_state, compute_quotes_fst, RollingOFI.on_trades, C10_snap]
    refine ⟨hc, ?_, ?_⟩
    · simp [hw]
    · simp [hw, hv, List.replicate_succ' k, List.length_replicate]
      intro h
      exact absurd h (by omega)

/-- C10: `compute_quotes` returns `should_quote = false` exactly when,
after feeding the snapshot's trades to the OFI estimator, the absolute
normalized OFI exceeds `toxic_ofi_threshold` and `pull_on_toxic` is set
(for every square-root/logarithm kernel, since the gate does not depend on
them); and in particular the threshold-0.5 pull-on-toxic quoter fed ten
snapshots each carrying a single BUY-aggressor trade returns
`should_quote = false` on the final call. -/
theorem C10_toxic_ofi_pullback :
    (∀ (sqrtQ logQ : ℚ → ℚ) (st : AvellanedaStoikovStrategy)
        (snap : StrategySnapshot),
      ((st.compute_quotes sqrtQ logQ snap).2.should_quote = false ↔
        (|(st.ofi_estimator.on_trades snap.trades).normalized_ofi| >
            st.config.toxic_ofi_threshold ∧ st.config.pull_on_toxic = true))) ∧
    (∀ sqrtQ logQ : ℚ → ℚ, (C10_run sqrtQ logQ).2.should_quote = false) := by
  refine ⟨fun a b c d => compute_quotes_should_quote c a b d, ?_⟩
  intro sqrtQ logQ
  obtain ⟨hc, hw, hv⟩ := C10_state_spec sqrtQ logQ 9 (by omega)
  rw [C10_run, compute_quotes_should_quote, hc]
  constructor
  · have h1 : ((C10_state sqrtQ logQ 9).ofi_estimator.on_trades
        C10_snap.trades).signed_volumes = List.replicate 9 5 ++ [5] := by
      simp [RollingOFI.on_trades, C10_snap, hv, hw]
    have h2 : ((C10_state sqrtQ logQ 9).ofi_estimator.on_trades
        C10_snap.trades).normalized_ofi = 1 := by
      simp [RollingOFI.normalized_ofi, h1, List.sum_replicate, List.map_replicate]
      norm_num
    rw [h2]
    norm_num [C10_cfg]
  · rfl

end Engine

namespace Engine

/-- The C++ helper `split(input, delimiter)` from `MarketSimulator.cpp`,
over character lists: splits at every delimiter occurrence, keeping empty
segments (the result is always nonempty). -/
def splitChars (d : Char) : List Char → List (List Char)
  | [] => [[]]
  | c :: cs =>
    let r := splitChars d cs
    if c = d then [] :: r
    else (c :: r.headI) :: r.tail

/-- Joining segments with a delimiter, as the serializer's output loops
do (`oss << part << d << part ...`). -/
def joinChars (d : Char) : List (List Char) → List Char
  | [] => []
  | [p] => p
  | p :: ps => p ++ d :: joinChars d ps

lemma splitChars_ne_nil (d : Char) (cs : List Char) : splitChars d cs ≠ [] := by
  cases cs with
  | nil => simp [splitChars]
  | cons c cs => by_cases h : c = d <;> simp [splitChars, h]

lemma splitChars_no_delim (d : Char) (cs : List Char) (h : d ∉ cs) :
    splitChars d cs = [cs] := by
  induction cs with
  | nil => rfl
  | cons c cs ih =>
    have hc : ¬ c = d := fun e => h (e ▸ List.mem_cons_self _ _)
    have hcs : d ∉ cs := fun m => h (List.mem_cons_of_mem _ m)
    simp [splitChars, hc, ih hcs]

lemma splitChars_append_sep (d : Char) (p cs : List Char) (h : d ∉ p) :
    splitChars d (p ++ d :: cs) = p :: splitChars d cs := by
  induction p with
  | nil => simp [splitChars]
  | cons c p' ih =>
    have hc : ¬ c = d := fun e => h (e ▸ List.mem_cons_self _ _)
    have hp : d ∉ p' := fun m => h (List.mem_cons_of_mem _ m)
    simp [splitChars, hc, ih hp]

lemma splitChars_joinChars (d : Char) (parts : List (List Char))
    (hne : parts ≠ []) (h : ∀ p ∈ parts, d ∉ p) :
    splitChars d (joinChars d parts) = parts := by
  induction parts with
  | nil => exact absurd rfl hne
  | cons p ps ih =>
    cases ps with
    | nil =>
      simp only [joinChars]
      exact splitChars_no_delim d p (h p (List.mem_cons_self _ _))
    | cons q qs =>
      have hj : joinChars d (p :: q :: qs) = p ++ d :: joinChars d (q :: qs) := rfl
      rw [hj, splitChars_append_sep d p _ (h p (List.mem_cons_self _ _))]
      rw [ih (by simp) (fun r hr => h r (List.mem_cons_of_mem _ hr))]

lemma mem_joinChars {d : Char} {parts : List (List Char)} {c : Char}
    (hc : c ∈ joinChars d parts) : c = d ∨ ∃ p ∈ parts, c ∈ p := by
  induction parts with
  | nil => simp [joinChars] at hc
  | cons p ps ih =>
    cases ps with
    | nil =>
      simp only [joinChars] at hc
      exact Or.inr ⟨p, List.mem_cons_self _ _, hc⟩
    | cons q qs =>
      have hj : joinChars d (p :: q :: qs) = p ++ d :: joinChars d (q :: qs) := rfl
      rw [hj] at hc
      rcases List.mem_append.mp hc with h1 | h2
      · exact Or.inr ⟨p, List.mem_cons_self _ _, h1⟩
      · rcases List.mem_cons.mp h2 with rfl | h3
        · exact Or.inl rfl
        · rcases ih h3 with h | ⟨r, hr, hcr⟩
          · exact Or.inl h
          · exact Or.inr ⟨r, List.mem_cons_of_mem _ hr, hcr⟩

end Engine

namespace Engine

/-- `to_millis` from `MarketSimulator.cpp`: on the whole-millisecond
timestamps the claim is about, `duration_cast<milliseconds>` is exact, so
the floor is the identity on the integral value. -/
def toMillis (q : ℚ) : ℤ := ⌊q⌋

/-- `from_millis` from `MarketSimulator.cpp`. -/
def fromMillis (n : ℤ) : ℚ := (n : ℚ)

/-- `side_to_str`. -/
def sideToStr : Side → List Char
  | Side.BUY => ['B', 'U', 'Y']
  | Side.SELL => ['S', 'E', 'L', 'L']

/-- `str_to_side`. -/
def strToSide (s : List Char) : Side :=
  if s = ['B', 'U', 'Y'] then Side.BUY else Side.SELL

/-- The numeric text codecs of the serializer, kept abstract: `printQ`
stands for `operator<<` at `max_digits10` precision on a double and
`parseQ` for `std::stod`; `printI`/`parseI` for `operator<<`/`std::stoll`
(or `stoi`) on signed integers; `printN`/`parseN` for
`operator<<`/`std::stoull` on `uint64_t`. Their round-trip contracts enter
the theorems as hypotheses on the serialized values. -/
structure NumCodec where
  printQ : ℚ → List Char
  printI : ℤ → List Char
  printN : ℕ → List Char
  parseQ : List Char → ℚ
  parseI : List Char → ℤ
  parseN : List Char → ℕ

/-- A printed numeral is usable in the line format when it is nonempty and
contains none of the three delimiters. -/
def delimFree (cs : List Char) : Prop :=
  cs ≠ [] ∧ '|' ∉ cs ∧ ';' ∉ cs ∧ ',' ∉ cs

/-- The `serialize_levels` lambda of `MarketSimulator::serialize_event`. -/
def serialize_levels (c : NumCodec) (levels : List OrderLevel) : List Char :=
  joinChars ';' (levels.map fun lv =>
    joinChars ',' [c.printQ lv.price, c.printI lv.size, c.printN lv.order_id,
      c.printI (toMillis lv.timestamp)])

/-- The `serialize_trades` lambda of `MarketSimulator::serialize_event`. -/
def serialize_trades (c : NumCodec) (trades : List Trade) : List Char :=
  joinChars ';' (trades.map fun t =>
    joinChars ',' [sideToStr t.aggressor_side, c.printQ t.price, c.printI t.size,
      c.printN t.trade_id, c.printI (toMillis t.timestamp)])

/-- The `serialize_partial_fills` lambda of
`MarketSimulator::serialize_event`. -/
def serialize_partial_fills (c : NumCodec) (fills : List PartialFillEvent) :
    List Char :=
  joinChars ';' (fills.map fun f =>
    joinChars ',' [c.printN f.order_id, c.printQ f.price, c.printI f.filled_size,
      c.printI f.remaining_size, c.printI (toMillis f.timestamp)])

/-- `MarketSimulator::serialize_event`: the 11 `|`-separated fields. -/
def serialize_event (c : NumCodec) (e : MarketDataEvent) : List Char :=
  joinChars '|'
    [c.printI e.sequence_number,
     e.instrument.data,
     c.printQ e.best_bid_price,
     c.printQ e.best_ask_price,
     c.printI e.best_bid_size,
     c.printI e.best_ask_size,
     c.printI (toMillis e.timestamp),
     serialize_levels c e.bid_levels,
     serialize_levels c e.ask_levels,
     serialize_trades c e.trades,
     serialize_partial_fills c e.partial_fills]

/-- The entry loop of the `parse_levels` lambda: empty entries are
skipped, entries with a token count other than 4 are an error. -/
def parse_levels_entries (c : NumCodec) : List (List Char) → Option (List OrderLevel)
  | [] => some []
  | entry :: rest =>
    if entry = [] then parse_levels_entries c rest
    else
      match splitChars ',' entry with
      | [t0, t1, t2, t3] =>
        (parse_levels_entries c rest).map fun lvs =>
          { price := c.parseQ t0, size := c.parseI t1, order_id := c.parseN t2,
            timestamp := fromMillis (c.parseI t3) } :: lvs
      | _ => none

/-- The `parse_levels` lambda of `MarketSimulator::deserialize_event`. -/
def parse_levels (c : NumCodec) (raw : List Char) : Option (List OrderLevel) :=
  if raw = [] then some []
  else parse_levels_entries c (splitChars ';' raw)

/-- The entry loop of the `parse_trades` lambda (token count 5). -/
def parse_trades_entries (c : NumCodec) : List (List Char) → Option (List Trade)
  | [] => some []
  | entry :: rest =>
    if entry = [] then parse_trades_entries c rest
    else
      match splitChars ',' entry with
      | [t0, t1, t2, t3, t4] =>
        (parse_trades_entries c rest).map fun ts =>
          { aggressor_side := strToSide t0, price := c.parseQ t1,
            size := c.parseI t2, trade_id := c.parseN t3,
            timestamp := fromMillis (c.parseI t4) } :: ts
      | _ => none

/-- The `parse_trades` lambda of `MarketSimulator::deserialize_event`. -/
def parse_trades (c : NumCodec) (raw : List Char) : Option (List Trade) :=
  if raw = [] then some []
  else parse_trades_entries c (splitChars ';' raw)

/-- The entry loop of the `parse_partial_fills` lambda (token count 5). -/
def parse_partial_fills_entries (c : NumCodec) :
    List (List Char) → Option (List PartialFillEvent)
  | [] => some []
  | entry :: rest =>
    if entry = [] then parse_partial_fills_entries c rest
    else
      match splitChars ',' entry with
      | [t0, t1, t2, t3, t4] =>
        (parse_partial_fills_entries c rest).map fun fs =>
          { order_id := c.parseN t0, price := c.parseQ t1,
            filled_size := c.parseI t2, remaining_size := c.parseI t3,
            timestamp := fromMillis (c.parseI t4) } :: fs
      | _ => none

/-- The `parse_partial_fills` lambda of
`MarketSimulator::deserialize_event`. -/
def parse_partial_fills (c : NumCodec) (raw : List Char) :
    Option (List PartialFillEvent) :=
  if raw = [] then some []
  else parse_partial_fills_entries c (splitChars ';' raw)

/-- `MarketSimulator::deserialize_event`: requires exactly 11 `|`-separated
fields (the C++ code throws otherwise, modelled as `none`); `mm_fills` is
left default-constructed, i.e. empty. -/
def deserialize_event (c : NumCodec) (line : List Char) : Option MarketDataEvent :=
  match splitChars '|' line with
  | [f0, f1, f2, f3, f4, f5, f6, f7, f8, f9, f10] => do
    let bid_levels ← parse_levels c f7
    let ask_levels ← parse_levels c f8
    let trades ← parse_trades c f9
    let partial_fills ← parse_partial_fills c f10
    some
      { instrument := String.mk f1,
        best_bid_price := c.parseQ f2,
        best_ask_price := c.parseQ f3,
        best_bid_size := c.parseI f4,
        best_ask_size := c.parseI f5,
        timestamp := fromMillis (c.parseI f6),
        bid_levels := bid_levels,
        ask_levels := ask_levels,
        trades := trades,
        partial_fills := partial_fills,
        mm_fills := [],
        sequence_number := c.parseI f0 }
  | _ => none

end Engine

namespace Engine

/-- The codec round-trips this double and prints it without delimiters
(the C++ guarantee of `max_digits10` formatting). -/
def QGood (c : NumCodec) (q : ℚ) : Prop :=
  c.parseQ (c.printQ q) = q ∧ delimFree (c.printQ q)

/-- The codec round-trips this signed integer. -/
def IGood (c : NumCodec) (n : ℤ) : Prop :=
  c.parseI (c.printI n) = n ∧ delimFree (c.printI n)

/-- The codec round-trips this unsigned id. -/
def NGood (c : NumCodec) (n : ℕ) : Prop :=
  c.parseN (c.printN n) = n ∧ delimFree (c.printN n)

/-- A timestamp at whole-millisecond precision. -/
def WholeMs (q : ℚ) : Prop := ∃ n : ℤ, q = (n : ℚ)

def LevelGood (c : NumCodec) (lv : OrderLevel) : Prop :=
  QGood c lv.price ∧ IGood c lv.size ∧ NGood c lv.order_id ∧
    IGood c (toMillis lv.timestamp) ∧ WholeMs lv.timestamp

def TradeGood (c : NumCodec) (t : Trade) : Prop :=
  QGood c t.price ∧ IGood c t.size ∧ NGood c t.trade_id ∧
    IGood c (toMillis t.timestamp) ∧ WholeMs t.timestamp

def PFillGood (c : NumCodec) (f : PartialFillEvent) : Prop :=
  NGood c f.order_id ∧ QGood c f.price ∧ IGood c f.filled_size ∧
    IGood c f.remaining_size ∧ IGood c (toMillis f.timestamp) ∧ WholeMs f.timestamp

/-- The claim's side conditions on an event: no `|` in the instrument, all
numerals round-trip without delimiter conflicts, all timestamps at whole
milliseconds. -/
def EventGood (c : NumCodec) (e : MarketDataEvent) : Prop :=
  IGood c e.sequence_number ∧ '|' ∉ e.instrument.data ∧
    QGood c e.best_bid_price ∧ QGood c e.best_ask_price ∧
    IGood c e.best_bid_size ∧ IGood c e.best_ask_size ∧
    IGood c (toMillis e.timestamp) ∧ WholeMs e.timestamp ∧
    (∀ lv ∈ e.bid_levels, LevelGood c lv) ∧
    (∀ lv ∈ e.ask_levels, LevelGood c lv) ∧
    (∀ t ∈ e.trades, TradeGood c t) ∧
    (∀ f ∈ e.partial_fills, PFillGood c f)

lemma strToSide_sideToStr (s : Side) : strToSide (sideToStr s) = s := by
  cases s <;> simp [strToSide, sideToStr]

lemma sideToStr_delimFree (s : Side) : delimFree (sideToStr s) := by
  cases s <;> simp [sideToStr, delimFree]

lemma fromMillis_toMillis {q : ℚ} (h : WholeMs q) : fromMillis (toMillis q) = q := by
  obtain ⟨n, rfl⟩ := h
  simp [fromMillis, toMillis]

lemma joinChars_cons_cons (d : Char) (p q : List Char) (ps : List (List Char)) :
    joinChars d (p :: q :: ps) = p ++ d :: joinChars d (q :: ps) := rfl

lemma entry_ne_nil (d : Char) (a : List Char) (rest : List (List Char))
    (hr : rest ≠ []) : joinChars d (a :: rest) ≠ [] := by
  cases rest with
  | nil => exact absurd rfl hr
  | cons b bs =>
    rw [joinChars_cons_cons]
    simp

lemma not_mem_joinChars (d d' : Char) (parts : List (List Char))
    (hne : d' ≠ d) (h : ∀ p ∈ parts, d' ∉ p) : d' ∉ joinChars d parts := by
  intro hmem
  rcases mem_joinChars hmem with rfl | ⟨p, hp, hin⟩
  · exact hne rfl
  · exact h p hp hin

end Engine

namespace Engine

lemma parse_levels_entries_map (c : NumCodec) :
    ∀ lvls : List OrderLevel, (∀ lv ∈ lvls, LevelGood c lv) →
      parse_levels_entries c (lvls.map fun lv =>
        joinChars ',' [c.printQ lv.price, c.printI lv.size, c.printN lv.order_id,
          c.printI (toMillis lv.timestamp)]) = some lvls := by
  intro lvls
  induction lvls with
  | nil => intro _; rfl
  | cons lv rest ih =>
    intro h
    obtain ⟨hq, hi, hn, hm, hw⟩ := h lv (List.mem_cons_self _ _)
    have hrest := fun x hx => h x (List.mem_cons_of_mem _ hx)
    have hne : joinChars ',' [c.printQ lv.price, c.printI lv.size,
        c.printN lv.order_id, c.printI (toMillis lv.timestamp)] ≠ [] :=
      entry_ne_nil ',' _ _ (by simp)
    have hsplit : splitChars ',' (joinChars ',' [c.printQ lv.price, c.printI lv.size,
        c.printN lv.order_id, c.printI (toMillis lv.timestamp)]) =
        [c.printQ lv.price, c.printI lv.size, c.printN lv.order_id,
         c.printI (toMillis lv.timestamp)] := by
      refine splitChars_joinChars ',' _ (by simp) ?_
      intro p hp
      simp only [List.mem_cons, List.not_mem_nil, or_false] at hp
      rcases hp with rfl | rfl | rfl | rfl
      · exact hq.2.2.2.2
      · exact hi.2.2.2.2
      · exact hn.2.2.2.2
      · exact hm.2.2.2.2
    simp only [List.map_cons, parse_levels_entries, if_neg hne, hsplit, ih hrest,
      Option.map_some]
    rw [hm.1, fromMillis_toMillis hw]
    simp [hq.1, hi.1, hn.1]

lemma serialize_levels_entry_props (c : NumCodec) (lv : OrderLevel)
    (h : LevelGood c lv) :
    (joinChars ',' [c.printQ lv.price, c.printI lv.size, c.printN lv.order_id,
      c.printI (toMillis lv.timestamp)]) ≠ [] ∧
    ';' ∉ (joinChars ',' [c.printQ lv.price, c.printI lv.size, c.printN lv.order_id,
      c.printI (toMillis lv.timestamp)]) ∧
    '|' ∉ (joinChars ',' [c.printQ lv.price, c.printI lv.size, c.printN lv.order_id,
      c.printI (toMillis lv.timestamp)]) := by
  obtain ⟨hq, hi, hn, hm, -⟩ := h
  refine ⟨entry_ne_nil _ _ _ (by simp), ?_, ?_⟩
  · refine not_mem_joinChars ',' ';' _ (by decide) ?_
    intro p hp
    simp only [List.mem_cons, List.not_mem_nil, or_false] at hp
    rcases hp with rfl | rfl | rfl | rfl
    · exact hq.2.2.2.1
    · exact hi.2.2.2.1
    · exact hn.2.2.2.1
    · exact hm.2.2.2.1
  · refine not_mem_joinChars ',' '|' _ (by decide) ?_
    intro p hp
    simp only [List.mem_cons, List.not_mem_nil, or_false] at hp
    rcases hp with rfl | rfl | rfl | rfl
    · exact hq.2.2.1
    · exact hi.2.2.1
    · exact hn.2.2.1
    · exact hm.2.2.1

lemma parse_serialize_levels (c : NumCodec) (lvls : List OrderLevel)
    (h : ∀ lv ∈ lvls, LevelGood c lv) :
    parse_levels c (serialize_levels c lvls) = some lvls := by
  cases lvls with
  | nil => simp [serialize_levels, parse_levels, joinChars]
  | cons lv0 rest =>
    have hne : serialize_levels c (lv0 :: rest) ≠ [] := by
      rw [serialize_levels]
      cases rest with
      | nil =>
        simp only [List.map_cons, List.map_nil, joinChars]
        exact (serialize_levels_entry_props c lv0 (h lv0 (List.mem_cons_self _ _))).1
      | cons l ls =>
        simp only [List.map_cons]
        exact entry_ne_nil ';' _ _ (by simp)
    have hsplit : splitChars ';' (serialize_levels c (lv0 :: rest)) =
        (lv0 :: rest).map fun lv =>
          joinChars ',' [c.printQ lv.price, c.printI lv.size, c.printN lv.order_id,
            c.printI (toMillis lv.timestamp)] := by
      rw [serialize_levels]
      refine splitChars_joinChars ';' _ (by simp) ?_
      intro p hp
      obtain ⟨lv, hlv, rfl⟩ := List.mem_map.mp hp
      exact (serialize_levels_entry_props c lv (h lv hlv)).2.1
    rw [parse_levels, if_neg hne, hsplit]
    exact parse_levels_entries_map c (lv0 :: rest) h

lemma serialize_levels_no_pipe (c : NumCodec) (lvls : List OrderLevel)
    (h : ∀ lv ∈ lvls, LevelGood c lv) : '|' ∉ serialize_levels c lvls := by
  rw [serialize_levels]
  refine not_mem_joinChars ';' '|' _ (by decide) ?_
  intro p hp
  obtain ⟨lv, hlv, rfl⟩ := List.mem_map.mp hp
  exact (serialize_levels_entry_props c lv (h lv hlv)).2.2

end Engine

namespace Engine

lemma serialize_trades_entry_props (c : NumCodec) (t : Trade)
    (h : TradeGood c t) :
    (joinChars ',' [sideToStr t.aggressor_side, c.printQ t.price, c.printI t.size,
      c.printN t.trade_id, c.printI (toMillis t.timestamp)]) ≠ [] ∧
    ';' ∉ (joinChars ',' [sideToStr t.aggressor_side, c.printQ t.price, c.printI t.size,
      c.printN t.trade_id, c.printI (toMillis t.timestamp)]) ∧
    '|' ∉ (joinChars ',' [sideToStr t.aggressor_side, c.printQ t.price, c.printI t.size,
      c.printN t.trade_id, c.printI (toMillis t.timestamp)]) := by
  obtain ⟨hq, hi, hn, hm, -⟩ := h
  have hs := sideToStr_delimFree t.aggressor_side
  refine ⟨entry_ne_nil _ _ _ (by simp), ?_, ?_⟩
  · refine not_mem_joinChars ',' ';' _ (by decide) ?_
    intro p hp
    simp only [List.mem_cons, List.not_mem_nil, or_false] at hp
    rcases hp with rfl | rfl | rfl | rfl | rfl
    · exact hs.2.2.1
    · exact hq.2.2.2.1
    · exact hi.2.2.2.1
    · exact hn.2.2.2.1
    · exact hm.2.2.2.1
  · refine not_mem_joinChars ',' '|' _ (by decide) ?_
    intro p hp
    simp only [List.mem_cons, List.not_mem_nil, or_false] at hp
    rcases hp with rfl | rfl | rfl | rfl | rfl
    · exact hs.2.1
    · exact hq.2.2.1
    · exact hi.2.2.1
    · exact hn.2.2.1
    · exact hm.2.2.1

lemma parse_trades_entries_map (c : NumCodec) :
    ∀ ts : List Trade, (∀ t ∈ ts, TradeGood c t) →
      parse_trades_entries c (ts.map fun t =>
        joinChars ',' [sideToStr t.aggressor_side, c.printQ t.price, c.printI t.size,
          c.printN t.trade_id, c.printI (toMillis t.timestamp)]) = some ts := by
  intro ts
  induction ts with
  | nil => intro _; rfl
  | cons t rest ih =>
    intro h
    obtain ⟨hq, hi, hn, hm, hw⟩ := h t (List.mem_cons_self _ _)
    have hs := sideToStr_delimFree t.aggressor_side
    have hrest := fun x hx => h x (List.mem_cons_of_mem _ hx)
    have hne : joinChars ',' [sideToStr t.aggressor_side, c.printQ t.price,
        c.printI t.size, c.printN t.trade_id, c.printI (toMillis t.timestamp)] ≠ [] :=
      entry_ne_nil ',' _ _ (by simp)
    have hsplit : splitChars ',' (joinChars ',' [sideToStr t.aggressor_side,
        c.printQ t.price, c.printI t.size, c.printN t.trade_id,
        c.printI (toMillis t.timestamp)]) =
        [sideToStr t.aggressor_side, c.printQ t.price, c.printI t.size,
         c.printN t.trade_id, c.printI (toMillis t.timestamp)] := by
      refine splitChars_joinChars ',' _ (by simp) ?_
      intro p hp
      simp only [List.mem_cons, List.not_mem_nil, or_false] at hp
      rcases hp with rfl | rfl | rfl | rfl | rfl
      · exact hs.2.2.2
      · exact hq.2.2.2.2
      · exact hi.2.2.2.2
      · exact hn.2.2.2.2
      · exact hm.2.2.2.2
    simp only [List.map_cons, parse_trades_entries, if_neg hne, hsplit, ih hrest,
      Option.map_some]
    rw [hm.1, fromMillis_toMillis hw]
    simp [hq.1, hi.1, hn.1, strToSide_sideToStr]

lemma parse_serialize_trades (c : NumCodec) (ts : List Trade)
    (h : ∀ t ∈ ts, TradeGood c t) :
    parse_trades c (serialize_trades c ts) = some ts := by
  cases ts with
  | nil => simp [serialize_trades, parse_trades, joinChars]
  | cons t0 rest =>
    have hne : serialize_trades c (t0 :: rest) ≠ [] := by
      rw [serialize_trades]
      cases rest with
      | nil =>
        simp only [List.map_cons, List.map_nil, joinChars]
        exact (serialize_trades_entry_props c t0 (h t0 (List.mem_cons_self _ _))).1
      | cons l ls =>
        simp only [List.map_cons]
        exact entry_ne_nil ';' _ _ (by simp)
    have hsplit : splitChars ';' (serialize_trades c (t0 :: rest)) =
        (t0 :: rest).map fun t =>
          joinChars ',' [sideToStr t.aggressor_side, c.printQ t.price, c.printI t.size,
            c.printN t.trade_id, c.printI (toMillis t.timestamp)] := by
      rw [serialize_trades]
      refine splitChars_joinChars ';' _ (by simp) ?_
      intro p hp
      obtain ⟨t, ht, rfl⟩ := List.mem_map.mp hp
      exact (serialize_trades_entry_props c t (h t ht)).2.1
    rw [parse_trades, if_neg hne, hsplit]
    exact parse_trades_entries_map c (t0 :: rest) h

lemma serialize_trades_no_pipe (c : NumCodec) (ts : List Trade)
    (h : ∀ t ∈ ts, TradeGood c t) : '|' ∉ serialize_trades c ts := by
  rw [serialize_trades]
  refine not_mem_joinChars ';' '|' _ (by decide) ?_
  intro p hp
  obtain ⟨t, ht, rfl⟩ := List.mem_map.mp hp
  exact (serialize_trades_entry_props c t (h t ht)).2.2

end Engine

namespace Engine

lemma serialize_partial_fills_entry_props (c : NumCodec) (f : PartialFillEvent)
    (h : PFillGood c f) :
    (joinChars ',' [c.printN f.order_id, c.printQ f.price, c.printI f.filled_size,
      c.printI f.remaining_size, c.printI (toMillis f.timestamp)]) ≠ [] ∧
    ';' ∉ (joinChars ',' [c.printN f.order_id, c.printQ f.price, c.printI f.filled_size,
      c.printI f.remaining_size, c.printI (toMillis f.timestamp)]) ∧
    '|' ∉ (joinChars ',' [c.printN f.order_id, c.printQ f.price, c.printI f.filled_size,
      c.printI f.remaining_size, c.printI (toMillis f.timestamp)]) := by
  obtain ⟨hn, hq, hf, hr, hm, -⟩ := h
  refine ⟨entry_ne_nil _ _ _ (by simp), ?_, ?_⟩
  · refine not_mem_joinChars ',' ';' _ (by decide) ?_
    intro p hp
    simp only [List.mem_cons, List.not_mem_nil, or_false] at hp
    rcases hp with rfl | rfl | rfl | rfl | rfl
    · exact hn.2.2.2.1
    · exact hq.2.2.2.1
    · exact hf.2.2.2.1
    · exact hr.2.2.2.1
    · exact hm.2.2.2.1
  · refine not_mem_joinChars ',' '|' _ (by decide) ?_
    intro p hp
    simp only [List.mem_cons, List.not_mem_nil, or_false] at hp
    rcases hp with rfl | rfl | rfl | rfl | rfl
    · exact hn.2.2.1
    · exact hq.2.2.1
    · exact hf.2.2.1
    · exact hr.2.2.1
    · exact hm.2.2.1

lemma parse_partial_fills_entries_map (c : NumCodec) :
    ∀ fs : List PartialFillEvent, (∀ f ∈ fs, PFillGood c f) →
      parse_partial_fills_entries c (fs.map fun f =>
        joinChars ',' [c.printN f.order_id, c.printQ f.price, c.printI f.filled_size,
          c.printI f.remaining_size, c.printI (toMillis f.timestamp)]) = some fs := by
  intro fs
  induction fs with
  | nil => intro _; rfl
  | cons f rest ih =>
    intro h
    obtain ⟨hn, hq, hf, hr, hm, hw⟩ := h f (List.mem_cons_self _ _)
    have hrest := fun x hx => h x (List.mem_cons_of_mem _ hx)
    have hne : joinChars ',' [c.printN f.order_id, c.printQ f.price,
        c.printI f.filled_size, c.printI f.remaining_size,
        c.printI (toMillis f.timestamp)] ≠ [] :=
      entry_ne_nil ',' _ _ (by simp)
    have hsplit : splitChars ',' (joinChars ',' [c.printN f.order_id, c.printQ f.price,
        c.printI f.filled_size, c.printI f.remaining_size,
        c.printI (toMillis f.timestamp)]) =
        [c.printN f.order_id, c.printQ f.price, c.printI f.filled_size,
         c.printI f.remaining_size, c.printI (toMillis f.timestamp)] := by
      refine splitChars_joinChars ',' _ (by simp) ?_
      intro p hp
      simp only [List.mem_cons, List.not_mem_nil, or_false] at hp
      rcases hp with rfl | rfl | rfl | rfl | rfl
      · exact hn.2.2.2.2
      · exact hq.2.2.2.2
      · exact hf.2.2.2.2
      · exact hr.2.2.2.2
      · exact hm.2.2.2.2
    simp only [List.map_cons, parse_partial_fills_entries, if_neg hne, hsplit,
      ih hrest, Option.map_some]
    rw [hm.1, fromMillis_toMillis hw]
    simp [hn.1, hq.1, hf.1, hr.1]

lemma parse_serialize_partial_fills (c : NumCodec) (fs : List PartialFillEvent)
    (h : ∀ f ∈ fs, PFillGood c f) :
    parse_partial_fills c (serialize_partial_fills c fs) = some fs := by
  cases fs with
  | nil => simp [serialize_partial_fills, parse_partial_fills, joinChars]
  | cons f0 rest =>
    have hne : serialize_partial_fills c (f0 :: rest) ≠ [] := by
      rw [serialize_partial_fills]
      cases rest with
      | nil =>
        simp only [List.map_cons, List.map_nil, joinChars]
        exact (serialize_partial_fills_entry_props c f0 (h f0 (List.mem_cons_self _ _))).1
      | cons l ls =>
        simp only [List.map_cons]
        exact entry_ne_nil ';' _ _ (by simp)
    have hsplit : splitChars ';' (serialize_partial_fills c (f0 :: rest)) =
        (f0 :: rest).map fun f =>
          joinChars ',' [c.printN f.order_id, c.printQ f.price, c.printI f.filled_size,
            c.printI f.remaining_size, c.printI (toMillis f.timestamp)] := by
      rw [serialize_partial_fills]
      refine splitChars_joinChars ';' _ (by simp) ?_
      intro p hp
      obtain ⟨f, hf, rfl⟩ := List.mem_map.mp hp
      exact (serialize_partial_fills_entry_props c f (h f hf)).2.1
    rw [parse_partial_fills, if_neg hne, hsplit]
    exact parse_partial_fills_entries_map c (f0 :: rest) h

lemma serialize_partial_fills_no_pipe (c : NumCodec) (fs : List PartialFillEvent)
    (h : ∀ f ∈ fs, PFillGood c f) : '|' ∉ serialize_partial_fills c fs := by
  rw [serialize_partial_fills]
  refine not_mem_joinChars ';' '|' _ (by decide) ?_
  intro p hp
  obtain ⟨f, hf, rfl⟩ := List.mem_map.mp hp
  exact (serialize_partial_fills_entry_props c f (h f hf)).2.2

end Engine

namespace Engine

/-- C9: for every event whose instrument contains no `|`, whose numerals
round-trip through the codec without delimiter conflicts, and whose
timestamps are at whole-millisecond precision,
`deserialize_event (serialize_event event)` succeeds and reproduces the
event exactly on all 11 logged fields; `mm_fills` is not serialized and
comes back empty. -/
theorem C9_serialize_deserialize_roundtrip (c : NumCodec) (e : MarketDataEvent)
    (h : EventGood c e) :
    deserialize_event c (serialize_event c e) = some { e with mm_fills := [] } := by
  obtain ⟨hseq, hinstr, hbb, hba, hbbs, hbas, hts, htsw, hbl, hal, htr, hpf⟩ := h
  have hsplit : splitChars '|' (serialize_event c e) =
      [c.printI e.sequence_number,
       e.instrument.data,
       c.printQ e.best_bid_price,
       c.printQ e.best_ask_price,
       c.printI e.best_bid_size,
       c.printI e.best_ask_size,
       c.printI (toMillis e.timestamp),
       serialize_levels c e.bid_levels,
       serialize_levels c e.ask_levels,
       serialize_trades c e.trades,
       serialize_partial_fills c e.partial_fills] := by
    rw [serialize_event]
    refine splitChars_joinChars '|' _ (by simp) ?_
    intro p hp
    simp only [List.mem_cons, List.not_mem_nil, or_false] at hp
    rcases hp with rfl | rfl | rfl | rfl | rfl | rfl | rfl | rfl | rfl | rfl | rfl
    · exact hseq.2.2.1
    · exact hinstr
    · exact hbb.2.2.1
    · exact hba.2.2.1
    · exact hbbs.2.2.1
    · exact hbas.2.2.1
    · exact hts.2.2.1
    · exact serialize_levels_no_pipe c _ hbl
    · exact serialize_levels_no_pipe c _ hal
    · exact serialize_trades_no_pipe c _ htr
    · exact serialize_partial_fills_no_pipe c _ hpf
  rw [deserialize_event, hsplit]
  simp only [parse_serialize_levels c _ hbl, parse_serialize_levels c _ hal,
    parse_serialize_trades c _ htr, parse_serialize_partial_fills c _ hpf,
    Option.bind_some, Option.some_bind]
  rw [hseq.1, hbb.1, hba.1, hbbs.1, hbas.1, hts.1, fromMillis_toMillis htsw]
  rfl

end Engine

namespace Engine

/-- A concrete codec for the witness: every serialized value in the
witness event is `1`, printed as the digit `1`. -/
def C9_codec : NumCodec :=
  { printQ := fun _ => ['1'], printI := fun _ => ['1'], printN := fun _ => ['1'],
    parseQ := fun _ => 1, parseI := fun _ => 1, parseN := fun _ => 1 }

/-- A concrete event (with a nonempty `mm_fills`, which serialization
drops). -/
def C9_event : MarketDataEvent :=
  { instrument := String.mk ['X', 'Y', 'Z'],
    best_bid_price := 1, best_ask_price := 1, best_bid_size := 1, best_ask_size := 1,
    bid_levels := [{ price := 1, size := 1, order_id := 1, timestamp := 1 }],
    ask_levels := [{ price := 1, size := 1, order_id := 1, timestamp := 1 }],
    trades := [{ aggressor_side := Side.BUY, price := 1, size := 1, trade_id := 1,
                 timestamp := 1 }],
    partial_fills := [{ order_id := 1, price := 1, filled_size := 1,
                        remaining_size := 1, timestamp := 1 }],
    mm_fills := [{ order_id := 1, trade_id := 1, side := Side.BUY, price := 1,
                   fill_qty := 1, leaves_qty := 0, timestamp := 1 }],
    timestamp := 1, sequence_number := 1 }

/-- Witness for C9 at the concrete codec and event. -/
theorem C9_serialize_deserialize_roundtrip_witness :
    deserialize_event C9_codec (serialize_event C9_codec C9_event) =
      some { C9_event with mm_fills := [] } := by
  have hdf : delimFree ['1'] := ⟨by simp, by decide, by decide, by decide⟩
  have htm : toMillis (1 : ℚ) = 1 := by norm_num [toMillis]
  have hms : WholeMs (1 : ℚ) := ⟨1, by norm_num⟩
  refine C9_serialize_deserialize_roundtrip C9_codec C9_event
    ⟨⟨rfl, hdf⟩, by decide, ⟨rfl, hdf⟩, ⟨rfl, hdf⟩, ⟨rfl, hdf⟩, ⟨rfl, hdf⟩,
     ⟨by simp [C9_codec, toMillis, C9_event], hdf⟩, hms, ?_, ?_, ?_, ?_⟩
  · intro lv hlv
    rcases List.mem_singleton.mp hlv with rfl
    exact ⟨⟨rfl, hdf⟩, ⟨rfl, hdf⟩, ⟨rfl, hdf⟩, ⟨by simp [C9_codec, toMillis], hdf⟩, hms⟩
  · intro lv hlv
    rcases List.mem_singleton.mp hlv with rfl
    exact ⟨⟨rfl, hdf⟩, ⟨rfl, hdf⟩, ⟨rfl, hdf⟩, ⟨by simp [C9_codec, toMillis], hdf⟩, hms⟩
  · intro t ht
    rcases List.mem_singleton.mp ht with rfl
    exact ⟨⟨rfl, hdf⟩, ⟨rfl, hdf⟩, ⟨rfl, hdf⟩, ⟨by simp [C9_codec, toMillis], hdf⟩, hms⟩
  · intro f hf
    rcases List.mem_singleton.mp hf with rfl
    exact ⟨⟨rfl, hdf⟩, ⟨rfl, hdf⟩, ⟨rfl, hdf⟩, ⟨rfl, hdf⟩, ⟨by simp [C9_codec, toMillis], hdf⟩, hms⟩

end Engine

namespace Engine

/-- `enum class SimulationMode` from `include/SimulationConfig.h`. -/
inductive SimulationMode where
  | Simulate
  | Replay
deriving DecidableEq, Repr

/-- `struct SimulationConfig` from `include/SimulationConfig.h`, with its
defaults. The 32-bit seed is a natural below `2^32`. -/
structure SimulationConfig where
  instrument : String := "XYZ"
  initial_price : ℚ := 100
  spread : ℚ := 1/10
  volatility : ℚ := 1/2
  latency_ms : ℤ := 10
  iterations : ℤ := 1000
  seed : ℕ := 42
  event_log_path : String := ""
  replay_log_path : String := ""
  mode : SimulationMode := SimulationMode.Simulate
  quiet : Bool := false
deriving DecidableEq, Repr

/-- The draw kernels of `std::mt19937` plus the three `<random>`
distributions the simulator uses, abstracted over the generator state `R`:
`normal mean stddev`, `uniformR a b` (`uniform_real_distribution`),
`uniformI a b` (`uniform_int_distribution`), and `ofSeed`
(`std::mt19937(seed)`). Every theorem quantifies over these kernels; only
their determinism (being functions) is used, which is exactly what the
C++ generator/distribution pair provides within one build. -/
structure RandomSource (R : Type) where
  normal : ℚ → ℚ → R → ℚ × R
  uniformR : ℚ → ℚ → R → ℚ × R
  uniformI : ℤ → ℤ → R → ℤ × R
  ofSeed : ℕ → R

/-- `kBaseTimestampMs` from `MarketSimulator.cpp`. -/
def kBaseTimestampMs : ℤ := 1700000000000

/-- `kSimOrderTag = 2ULL << 48`. -/
def kSimOrderTag : ℕ := 2 <<< 48

/-- `kTradeIdTag = 3ULL << 48`. -/
def kTradeIdTag : ℕ := 3 <<< 48

/-- The member state of `class MarketSimulator` (Simulate mode). The
`config` member is copied field-by-field into the members at construction
and not read afterwards by `generate_event`/`submit_order`/`cancel_order`,
so it is not part of the modelled state. `latency_ms` is read only by the
`sleep_for` call, which has no effect on any event field, so it is
external to the modelled state like the event-log stream and the replay
vector (empty in Simulate mode). -/
structure MarketSimulator (R : Type) where
  instrument : String
  mid_price : ℚ
  spread : ℚ
  volatility : ℚ
  rng : R
  sequence_number : ℤ
  simulation_clock : ℚ
  bid_levels : List OrderLevel
  ask_levels : List OrderLevel
  matching_engine : MatchingEngine
  sim_order_counter : ℕ

/-- `MarketSimulator::current_time`: the logical clock advances one
millisecond per call. -/
def MarketSimulator.current_time {R : Type} (s : MarketSimulator R) :
    MarketSimulator R × ℚ :=
  let c := s.simulation_clock + 1
  ({ s with simulation_clock := c }, c)

/-- `MarketSimulator::generate_order_id`. -/
def MarketSimulator.generate_order_id {R : Type} (s : MarketSimulator R) :
    MarketSimulator R × ℕ :=
  let n := s.sim_order_counter + 1
  ({ s with sim_order_counter := n }, kSimOrderTag ||| n)

/-- `MarketSimulator::initialize_order_book`: five levels a side, each
with a uniform size draw, a fresh order id and a clock tick (argument
draws taken left to right). -/
def MarketSimulator.initialize_order_book {R : Type} (rs : RandomSource R)
    (s : MarketSimulator R) : MarketSimulator R :=
  (List.range 5).foldl (fun (s : MarketSimulator R) (i : ℕ) =>
    let off := ((i + 1 : ℕ) : ℚ) * s.spread / 2
    let db := rs.uniformI 1 10 s.rng
    let s := { s with rng := db.2 }
    let gb := s.generate_order_id
    let tb := gb.1.current_time
    let s : MarketSimulator R :=
      { tb.1 with bid_levels := tb.1.bid_levels ++
          [{ price := s.mid_price - off, size := db.1, order_id := gb.2,
             timestamp := tb.2 }] }
    let da := rs.uniformI 1 10 s.rng
    let s := { s with rng := da.2 }
    let ga := s.generate_order_id
    let ta := ga.1.current_time
    ({ ta.1 with
        ask_levels := ta.1.ask_levels ++
          [{ price := s.mid_price + off, size := da.1, order_id := ga.2,
             timestamp := ta.2 }] } : MarketSimulator R)) s

/-- The `MarketSimulator(const SimulationConfig&)` constructor in Simulate
mode. -/
def MarketSimulator.init {R : Type} (rs : RandomSource R)
    (cfg : SimulationConfig) : MarketSimulator R :=
  MarketSimulator.initialize_order_book rs
    { instrument := cfg.instrument, mid_price := cfg.initial_price,
      spread := cfg.spread, volatility := cfg.volatility,
      rng := rs.ofSeed cfg.seed,
      sequence_number := 0,
      simulation_clock := fromMillis (kBaseTimestampMs + (cfg.seed : ℤ) * 1000),
      bid_levels := [], ask_levels := [], matching_engine := {},
      sim_order_counter := 0 }

/-- The per-level mutation loop of `MarketSimulator::update_order_book`,
threading the generator state. -/
def mapLevelsRng {R : Type} (f : ℕ → OrderLevel → R → OrderLevel × R) :
    List OrderLevel → ℕ → R → List OrderLevel × R
  | [], _, r => ([], r)
  | lv :: rest, i, r =>
    let p := f i lv r
    let q := mapLevelsRng f rest (i + 1) p.2
    (p.1 :: q.1, q.2)

/-- Insertion into a list sorted by a boolean comparator (`std::sort` on
the level vectors; the comparator is a strict price order, and insertion
sort is one deterministic implementation of it). -/
def insertLevel (lt : OrderLevel → OrderLevel → Bool) (lv : OrderLevel) :
    List OrderLevel → List OrderLevel
  | [] => [lv]
  | x :: xs => if lt lv x then lv :: x :: xs else x :: insertLevel lt lv xs

/-- Sorting the level vectors (`std::sort`). -/
def sortLevels (lt : OrderLevel → OrderLevel → Bool) :
    List OrderLevel → List OrderLevel
  | [] => []
  | x :: xs => insertLevel lt x (sortLevels lt xs)

/-- `MarketSimulator::update_order_book`: re-anchor each level around the
mid price with noise, bump sizes, then sort each side. -/
def MarketSimulator.update_order_book {R : Type} (rs : RandomSource R)
    (s : MarketSimulator R) : MarketSimulator R :=
  let fb := mapLevelsRng (fun i lv r =>
    let n := rs.uniformR (-1/1000) (1/1000) r
    let d := rs.uniformI (-2) 2 n.2
    ({ lv with price := s.mid_price - ((i + 1 : ℕ) : ℚ) * s.spread / 2 + n.1,
               size := max 1 (lv.size + d.1) }, d.2)) s.bid_levels 0 s.rng
  let s := { s with bid_levels := sortLevels (fun a b => decide (a.price > b.price)) fb.1,
                    rng := fb.2 }
  let fa := mapLevelsRng (fun i lv r =>
    let n := rs.uniformR (-1/1000) (1/1000) r
    let d := rs.uniformI (-2) 2 n.2
    ({ lv with price := s.mid_price + ((i + 1 : ℕ) : ℚ) * s.spread / 2 + n.1,
               size := max 1 (lv.size + d.1) }, d.2)) s.ask_levels 0 s.rng
  { s with ask_levels := sortLevels (fun a b => decide (a.price < b.price)) fa.1,
           rng := fa.2 }

/-- `MarketSimulator::simulate_trade_activity`: 20% chance of a trade at
the touch of the hit side, routed through the matching engine against the
MM's resting orders. -/
def MarketSimulator.simulate_trade_activity {R : Type} (rs : RandomSource R)
    (s : MarketSimulator R) :
    MarketSimulator R × List Trade × List FillEvent :=
  let p1 := rs.uniformR 0 1 s.rng
  let s := { s with rng := p1.2 }
  if p1.1 < 1/5 then
    let p2 := rs.uniformR 0 1 s.rng
    let s := { s with rng := p2.2 }
    let is_buy := p2.1 < 1/2
    let aggressor_side := if is_buy then Side.BUY else Side.SELL
    let levels := if is_buy then s.ask_levels else s.bid_levels
    if levels ≠ [] then
      let sz := rs.uniformI 1 20 s.rng
      let s := { s with rng := sz.2 }
      let trade_price := levels.headI.price
      let trade_id := kTradeIdTag ||| (s.sequence_number + 1).toNat
      let ct := s.current_time
      let s := ct.1
      let trade : Trade :=
        { aggressor_side := aggressor_side, price := trade_price,
          size := sz.1, trade_id := trade_id, timestamp := ct.2 }
      let mr := s.matching_engine.match_incoming_order aggressor_side trade_price
        sz.1 trade_id ct.2
      ({ s with matching_engine := mr.1 }, [trade], mr.2)
    else (s, [], [])
  else (s, [], [])

/-- `MarketSimulator::generate_event` in Simulate mode (the replay vector
is empty): move the mid by a normal draw, floor at 0.01, update the book,
simulate trade activity, advance the clock, derive `partial_fills` from
the maker fills with positive leaves, and emit the event with the next
sequence number. -/
def MarketSimulator.generate_event {R : Type} (rs : RandomSource R)
    (s : MarketSimulator R) : MarketSimulator R × MarketDataEvent :=
  let nz := rs.normal 0 s.volatility s.rng
  let s := { s with rng := nz.2, mid_price := max (s.mid_price + nz.1) (1/100) }
  let s := s.update_order_book rs
  let ta := s.simulate_trade_activity rs
  let s := ta.1
  let trades := ta.2.1
  let mm_fills := ta.2.2
  let ct := s.current_time
  let s := ct.1
  let partial_fills := mm_fills.filterMap (fun f =>
    if f.leaves_qty > 0 then
      some { order_id := f.order_id, price := f.price, filled_size := f.fill_qty,
             remaining_size := f.leaves_qty, timestamp := f.timestamp }
    else none)
  let seq := s.sequence_number + 1
  ({ s with sequence_number := seq },
   { instrument := s.instrument,
     best_bid_price := if s.bid_levels.isEmpty then 0 else s.bid_levels.headI.price,
     best_ask_price := if s.ask_levels.isEmpty then 0 else s.ask_levels.headI.price,
     best_bid_size := if s.bid_levels.isEmpty then 0 else s.bid_levels.headI.size,
     best_ask_size := if s.ask_levels.isEmpty then 0 else s.ask_levels.headI.size,
     bid_levels := s.bid_levels, ask_levels := s.ask_levels,
     trades := trades, partial_fills := partial_fills, mm_fills := mm_fills,
     timestamp := ct.2, sequence_number := seq })

/-- `MarketSimulator::submit_order`. -/
def MarketSimulator.submit_order {R : Type} (s : MarketSimulator R) (o : Order) :
    MarketSimulator R × OrderStatus :=
  let r := s.matching_engine.add_order o
  ({ s with matching_engine := r.1 }, r.2)

/-- `MarketSimulator::cancel_order`. -/
def MarketSimulator.cancel_order {R : Type} (s : MarketSimulator R) (id : ℕ) :
    MarketSimulator R × Bool :=
  let r := s.matching_engine.cancel_order id
  ({ s with matching_engine := r.1 }, r.2)

/-- A driver call against the simulator, as in the claim: a
`generate_event` call or an interleaved `submit_order`/`cancel_order`. -/
inductive SimOp where
  | generate
  | submit (o : Order)
  | cancel (id : ℕ)

/-- Run a sequence of driver calls, collecting the generated events. -/
def MarketSimulator.runOps {R : Type} (rs : RandomSource R) :
    MarketSimulator R → List SimOp → MarketSimulator R × List MarketDataEvent
  | s, [] => (s, [])
  | s, SimOp.generate :: rest =>
    let g := s.generate_event rs
    let r := MarketSimulator.runOps rs g.1 rest
    (r.1, g.2 :: r.2)
  | s, SimOp.submit o :: rest =>
    MarketSimulator.runOps rs (s.submit_order o).1 rest
  | s, SimOp.cancel id :: rest =>
    MarketSimulator.runOps rs (s.cancel_order id).1 rest

end Engine


namespace Engine

/-- C1: two `MarketSimulator` instances constructed from `SimulationConfig`s
that agree on the fields the Simulate-mode generator reads (instrument,
initial price, spread, volatility, seed) — in particular two instances
built from identical configs — and driven by the same sequence of
`generate_event` calls with identical interleaved
`submit_order`/`cancel_order` calls produce field-by-field identical event
sequences, for every generator/distribution kernel. The latency, iteration
count, log paths and quiet flag do not influence the stream. -/
theorem C1_simulator_determinism {R : Type} (rs : RandomSource R)
    (cfg₁ cfg₂ : SimulationConfig)
    (h1 : cfg₁.instrument = cfg₂.instrument)
    (h2 : cfg₁.initial_price = cfg₂.initial_price)
    (h3 : cfg₁.spread = cfg₂.spread)
    (h4 : cfg₁.volatility = cfg₂.volatility)
    (h5 : cfg₁.seed = cfg₂.seed)
    (_h6 : cfg₁.mode = SimulationMode.Simulate)
    (_h7 : cfg₂.mode = SimulationMode.Simulate)
    (ops : List SimOp) :
    (MarketSimulator.runOps rs (MarketSimulator.init rs cfg₁) ops).2 =
      (MarketSimulator.runOps rs (MarketSimulator.init rs cfg₂) ops).2 := by
  have hinit : MarketSimulator.init rs cfg₁ = MarketSimulator.init rs cfg₂ := by
    rw [MarketSimulator.init, MarketSimulator.init, h1, h2, h3, h4, h5]
  rw [hinit]

/-- A concrete generator for the witness: a counter state with trivial
draw kernels. -/
def C1_rs : RandomSource ℕ :=
  { normal := fun _ _ r => (0, r + 1),
    uniformR := fun a _ r => (a, r + 1),
    uniformI := fun a _ r => (a, r + 1),
    ofSeed := fun n => n }

/-- Witness for C1: the default config against a copy with different
latency, iteration count and log path, over a generate call with an
interleaved submission and cancel. -/
theorem C1_simulator_determinism_witness :
    (MarketSimulator.runOps C1_rs (MarketSimulator.init C1_rs {})
      [SimOp.submit (Order.mk' 5 Side.BUY 100 3 1), SimOp.generate,
       SimOp.cancel 5]).2 =
    (MarketSimulator.runOps C1_rs (MarketSimulator.init C1_rs
        { latency_ms := 0, iterations := 200, event_log_path := "log.txt" })
      [SimOp.submit (Order.mk' 5 Side.BUY 100 3 1), SimOp.generate,
       SimOp.cancel 5]).2 :=
  C1_simulator_determinism C1_rs {}
    { latency_ms := 0, iterations := 200, event_log_path := "log.txt" }
    rfl rfl rfl rfl rfl rfl rfl
    [SimOp.submit (Order.mk' 5 Side.BUY 100 3 1), SimOp.generate,
     SimOp.cancel 5]

end Engine
